import Mathlib

/-!
Verification development for the Chipy hardware-construction library
(src/chipy/Chipy.py).  The Python source is shallowly embedded below:
signal records, snippets, modules and the design-level operations are
translated into executable Lean definitions, and the behaviour claimed by
the specification is proved (or refuted) about those definitions.

Modelling conventions, used throughout:
* Python exceptions are modelled with `Except PyErr` (or a `× Option PyErr`
  component when mutations performed before the raise must be observable).
* `ChipyCodeLoc()` walks the runtime stack and returns a `file:line` string;
  it is modelled as an explicit `loc : String` argument.
* Auto-generated names (`ChipyAutoName`) come from a thread-local counter;
  where a single fresh name is needed it is either derived from an explicit
  counter in the state or passed as an argument.
* Python dicts are insertion-ordered; they are modelled as lists (of keys,
  or of association pairs) with insertion-order update semantics.
-/

set_option maxHeartbeats 1000000

/-- The exception kinds raised by the source: `ChipyError` (a subclass of
`ValueError`), plain `ValueError`, `TypeError`, and the `AttributeError`
that Python itself raises when an attribute of `None` is accessed. -/
inductive PyErr where
  | chipyError (msg : String)
  | valueError (msg : String)
  | typeError (msg : String)
  | attributeError
deriving Repr, DecidableEq

/-- Flat record of the mutable attributes of `ChipySignal` (Chipy.py,
`ChipySignal.__init__`).  `deps` keeps only the keys of the Python
`deps` dict (dependency signal names), which is all the source ever
reads of it at this level. -/
structure SignalInfo where
  name : String
  module : Option String
  codeloc : String
  width : Nat
  signed : Bool
  register : Bool
  regaction : Bool
  inport : Bool
  outport : Bool
  vlog_rvalue : Option String
  vlog_lvalue : Option String
  vlog_reg : Bool
  memory : Option String
  materialize : Bool
  gotassign : Bool
  portalias : Option String
  deps : List String
deriving Repr, DecidableEq

/-- A fresh `ChipySignal(module, name)` before any caller mutation: all
flags false, width 1, everything else empty (Chipy.py lines 375-401).
Registration into `module.signals` is performed by the callers below. -/
def newSignal (module : Option String) (name : String) (loc : String) : SignalInfo :=
  { name := name
    module := module
    codeloc := loc
    width := 1
    signed := false
    register := false
    regaction := false
    inport := false
    outport := false
    vlog_rvalue := none
    vlog_lvalue := none
    vlog_reg := false
    memory := none
    materialize := false
    gotassign := false
    portalias := none
    deps := [] }

/-- `ChipySnippet` (Chipy.py lines 161-165).  `lvalue_signals` keeps the
keys (driven signal names) of the Python name-to-signal dict. -/
structure ChipySnippet where
  indent_str : String
  text_lines : List String
  lvalue_signals : List String
deriving Repr, DecidableEq

/-- A fresh `ChipySnippet()`. -/
def newSnippet : ChipySnippet :=
  { indent_str := "    ", text_lines := [], lvalue_signals := [] }

/-- Python `dict.update` on a key list: keys already present keep their
position, new keys are appended in order. -/
def updateKeys (cur : List String) (new : List String) : List String :=
  new.foldl (fun acc k => if k ∈ acc then acc else acc ++ [k]) cur

/-- `ChipyMemory` attributes (Chipy.py lines 605-625).  The `posedge` /
`negedge` clock signals are kept by name, which is the only attribute of
them the emitter reads. -/
structure ChipyMemory where
  name : String
  width : Nat
  depth : Nat
  signed : Bool
  posedge : Option String
  negedge : Option String
  regactions : List String
  codeloc : String
deriving Repr, DecidableEq

/-- One rendered instance port: member name, local signal name, and the
local signal's `portalias` (Chipy.py lines 242-248 read exactly these). -/
structure InstPort where
  member : String
  sigName : String
  portalias : Option String
deriving Repr, DecidableEq

/-- `ChipyModule` containers (Chipy.py lines 168-182). -/
structure ChipyModule where
  name : String
  signals : List SignalInfo
  memories : List ChipyMemory
  regactions : List String
  instances : List (String × String × List InstPort × String)
  init_snippets : List ChipySnippet
  code_snippets : List ChipySnippet
  codeloc : String
deriving Repr, DecidableEq

/-- Insert a signal into `module.signals` (the registration done at the
end of `ChipySignal.__init__`, line 401). -/
def ChipyModule.addSignal (m : ChipyModule) (s : SignalInfo) : ChipyModule :=
  { m with signals := m.signals ++ [s] }

/-- Look up a signal by name in a module (dict access `module.signals[n]`). -/
def ChipyModule.findSignal (m : ChipyModule) (n : String) : Option SignalInfo :=
  m.signals.find? (fun s => s.name = n)

/-- Update (by name) a signal stored in a module; models attribute
mutation of the shared `ChipySignal` object. -/
def ChipyModule.updateSignal (m : ChipyModule) (n : String)
    (f : SignalInfo → SignalInfo) : ChipyModule :=
  { m with signals := m.signals.map (fun s => if s.name = n then f s else s) }

/- ===================================================================
   Expression builders (ChipySameModule, ChipyBinaryOp)
   =================================================================== -/

/-- `ChipySameModule` (Chipy.py lines 69-76).  The current open context is
modelled by `current : Option String` carrying its module name (`none`
when no context is open, which makes `raiseOutsideContext` fire).  The
Python set `{ctx.module, *modules} - {None}` is modelled by `filterMap id`
plus `dedup`; the call fails unless exactly one module remains. -/
def ChipySameModule (current : Option String) (modules : List (Option String)) :
    Except PyErr String :=
  match current with
  | none => .error (.chipyError "ChipySameModule called outside chipy context")
  | some cur =>
    match ((some cur :: modules).filterMap id).dedup with
    | [m] => .ok m
    | _ => .error (.valueError "Modules are none or not the same.")

/-- `ChipyBinaryOp` (Chipy.py lines 339-357).  Both operands are already
signals (`Sig` on a `ChipySignal` is the identity, lines 1111-1121).
`autoname` is the fresh auto-generated name for the result signal. -/
def ChipyBinaryOp (vlogop : String) (a b : SignalInfo) (current : Option String)
    (autoname loc : String) (signprop leftwidth : Bool) : Except PyErr SignalInfo :=
  match ChipySameModule current [a.module, b.module] with
  | .error e => .error e
  | .ok m =>
    let base := newSignal (some m) autoname loc
    let sized :=
      if leftwidth then
        { base with width := a.width, signed := a.signed && signprop }
      else
        { base with width := max a.width b.width,
                    signed := a.signed && b.signed && signprop }
    .ok { sized with
            vlog_rvalue := some (a.name ++ " " ++ vlogop ++ " " ++ b.name),
            deps := updateKeys [] [a.name, b.name] }

/-- `ChipySignal.__add__` (line 508): arithmetic/bitwise operators call
`ChipyBinaryOp` with the default flags `signprop=True, leftwidth=False`. -/
def sigAdd (a b : SignalInfo) (current : Option String) (autoname loc : String) :
    Except PyErr SignalInfo :=
  ChipyBinaryOp "+" a b current autoname loc true false

/-- `ChipySignal.__lshift__` (line 544): shifts call `ChipyBinaryOp` with
`leftwidth=True` (and the default `signprop=True`). -/
def sigShl (a b : SignalInfo) (current : Option String) (autoname loc : String) :
    Except PyErr SignalInfo :=
  ChipyBinaryOp "<<<" a b current autoname loc true true

/-- `ChipySignal.__rshift__` (line 550). -/
def sigShr (a b : SignalInfo) (current : Option String) (autoname loc : String) :
    Except PyErr SignalInfo :=
  ChipyBinaryOp ">>>" a b current autoname loc true true

/- ===================================================================
   Connect
   =================================================================== -/

/-- The `checkreg` lambda of `Connect` (Chipy.py line 1045): a signal
qualifies as master iff it is not a register, or already has a regaction
or an assignment. -/
def checkreg (sig : SignalInfo) : Bool :=
  !sig.register || sig.regaction || sig.gotassign

/-- The mutations applied to each slave signal in `Connect`
(Chipy.py lines 1060-1066). -/
def slaveUpdate (master : SignalInfo) (s : SignalInfo) : SignalInfo :=
  { s with portalias := some master.name
           register := false
           regaction := false
           gotassign := false
           vlog_reg := false }

/-- `Connect` on plain signals (Chipy.py lines 1032-1066; the
bundle-recursion branch does not apply to `SignalInfo` arguments).
`current` is the module of the open context (`none` fires
`raiseOutsideContext`), `regactions` that module's regaction list.  The
result is the updated signal list (Python mutates the slave objects in
place) together with the extended regaction list.  The Python
`len(masters)` zero / greater-than-one tests are rendered as a match on
the filtered list. -/
def Connect (current : Option String) (regactions : List String)
    (first second : SignalInfo) (rest : List SignalInfo) (loc : String) :
    Except PyErr (List SignalInfo × List String) :=
  match current with
  | none => .error (.chipyError "Connect called outside chipy context")
  | some _ =>
    let sigs := first :: second :: rest
    let masters := sigs.filter checkreg
    let slave_sigs := sigs.filter (fun s => !checkreg s)
    match masters with
    | [] => .error (.chipyError "Could not identify a master signal in Connect statement")
    | [master_sig] =>
      .ok (sigs.map (fun s => if checkreg s then s else slaveUpdate master_sig s),
           regactions ++ slave_sigs.map
             (fun s => "  assign " ++ s.name ++ " = " ++ master_sig.name ++ "; // " ++ loc))
    | _ =>
      .error (.chipyError ("Multiple possible masters in Connect statement: " ++
        String.intercalate "," (masters.map (fun sig => sig.name))))

/- ===================================================================
   Bundles (ChipyBundle.regs / nonregs)
   =================================================================== -/

/-- `ChipyBundle` (Chipy.py lines 637-689): an insertion-ordered mapping
from member name to either a leaf signal or a sub-bundle, rendered here
as a cons-list so that all recursions are structural. -/
inductive ChipyBundle where
  | nil : ChipyBundle
  | consSig (name : String) (s : SignalInfo) (rest : ChipyBundle) : ChipyBundle
  | consSub (name : String) (b : ChipyBundle) (rest : ChipyBundle) : ChipyBundle
deriving Repr, DecidableEq

/-- `ChipyBundle.regs` (Chipy.py lines 644-651): keep leaf members with
`register` set, recurse into sub-bundles. -/
def ChipyBundle.regs : ChipyBundle → ChipyBundle
  | .nil => .nil
  | .consSig n s rest =>
    if s.register then .consSig n s (ChipyBundle.regs rest) else ChipyBundle.regs rest
  | .consSub n b rest => .consSub n (ChipyBundle.regs b) (ChipyBundle.regs rest)

/-- `ChipyBundle.nonregs` (Chipy.py lines 653-660). -/
def ChipyBundle.nonregs : ChipyBundle → ChipyBundle
  | .nil => .nil
  | .consSig n s rest =>
    if s.register then ChipyBundle.nonregs rest else .consSig n s (ChipyBundle.nonregs rest)
  | .consSub n b rest => .consSub n (ChipyBundle.nonregs b) (ChipyBundle.nonregs rest)

/-- The leaf signals of a bundle, each with its member path (list of
member names from the root). -/
def ChipyBundle.leaves : ChipyBundle → List (List String × SignalInfo)
  | .nil => []
  | .consSig n s rest => ([n], s) :: ChipyBundle.leaves rest
  | .consSub n b rest =>
    (ChipyBundle.leaves b).map (fun p => (n :: p.1, p.2)) ++ ChipyBundle.leaves rest

/- ===================================================================
   Register synthesis (AddFF, AddAsync, AddReg, AddOutput)
   =================================================================== -/

/-- Python `"%s" % x` renders `None` as the string `None`; this helper
mirrors that for optional strings interpolated by the source. -/
def optStr (o : Option String) : String :=
  match o with
  | none => "None"
  | some s => s

/-- An empty `ChipyModule(name)` as produced by `AddModule` (registration
in the global module dict aside). -/
def emptyModule (name loc : String) : ChipyModule :=
  { name := name
    signals := []
    memories := []
    regactions := []
    instances := []
    init_snippets := []
    code_snippets := []
    codeloc := loc }

/-- The init-snippet built at the start of `AddFF` (Chipy.py lines
899-905): default next-value is the hold value `<lvalue> = <name>;`, or
`<lvalue> = <width>'bx;` under `nodefault`; the snippet drives the
signal. -/
def ffInitSnippet (sig : SignalInfo) (nodefault : Bool) (loc : String) : ChipySnippet :=
  { indent_str := "    "
    text_lines :=
      [if nodefault then
        "    " ++ optStr sig.vlog_lvalue ++ " = " ++ toString sig.width ++ "'bx; // " ++ loc
      else
        "    " ++ optStr sig.vlog_lvalue ++ " = " ++ sig.name ++ "; // " ++ loc]
    lvalue_signals := [sig.name] }

/-- `AddFF` (Chipy.py lines 888-918), single-signal case (the bundle
branch recurses member-wise).  `m` is the signal's module
(`signal.module`); mutations performed before a raise are kept in the
returned module, paired with the error.  Note the source's negedge
branch (line 915) formats `posedge.name` even though on that branch
`posedge` is `None`, which in Python raises `AttributeError`. -/
def AddFF (m : ChipyModule) (sig : SignalInfo) (posedge negedge : Option String)
    (nodefault : Bool) (loc : String) : ChipyModule × Option PyErr :=
  if !sig.register then
    (m, some (.chipyError "AddFF called on non-register signal"))
  else if sig.regaction then
    (m, some (.chipyError "AddFF called on register with regaction already set"))
  else
    let m1 := { m with init_snippets := m.init_snippets ++ [ffInitSnippet sig nodefault loc] }
    if posedge.isNone == negedge.isNone then
      (m1, some (.valueError "posedge XOR negedge must be given"))
    else
      match posedge with
      | some p =>
        let m2 := { m1 with regactions := m1.regactions ++
          ["  always @(posedge " ++ p ++ ") " ++ sig.name ++ " <= " ++
            optStr sig.vlog_lvalue ++ "; // " ++ loc] }
        let m3 := m2.updateSignal sig.name (fun s => { s with vlog_reg := true })
        (m3.updateSignal sig.name (fun s => { s with regaction := true }), none)
      | none =>
        -- negedge branch: the source formats `posedge.name` with
        -- `posedge = None` here, so Python raises AttributeError before
        -- appending any regaction line or setting any flag.
        (m1, some .attributeError)

/-- `AddAsync` (Chipy.py lines 921-938), single-signal case. -/
def AddAsync (m : ChipyModule) (sig : SignalInfo) (loc : String) :
    ChipyModule × Option PyErr :=
  if !sig.register then
    (m, some (.chipyError "AddAsync called on non-register signal"))
  else if sig.regaction then
    (m, some (.chipyError "AddAsync called on register with regaction already set"))
  else
    let snippet : ChipySnippet :=
      { indent_str := "    "
        text_lines := ["    " ++ optStr sig.vlog_lvalue ++ " = " ++
          toString sig.width ++ "'bx; // " ++ loc]
        lvalue_signals := [sig.name] }
    let m1 := { m with init_snippets := m.init_snippets ++ [snippet] }
    let m2 := { m1 with regactions := m1.regactions ++
      ["  assign " ++ sig.name ++ " = " ++ optStr sig.vlog_lvalue ++ "; // " ++ loc] }
    (m2.updateSignal sig.name (fun s => { s with regaction := true }), none)

/-- `AddReg` (Chipy.py lines 834-861), restricted as the claims need it
to the integer-type, single-name case (the whitespace-split multi-name
and interface-type branches recurse into this one).  `m` is the current
context's module; the fresh signal's attribute assignments (width, sign,
register, shadow lvalue, materialization of the dependency-free fresh
signal) are modelled by building the record directly. -/
def AddReg (m : ChipyModule) (name : String) (ty : Int)
    (posedge negedge : Option String) (nodefault : Bool) (async : Bool) (loc : String) :
    ChipyModule × Except PyErr SignalInfo :=
  if (m.findSignal name).isSome then
    (m, .error (.chipyError ("Signal name " ++ name ++ " already in use in module " ++ m.name)))
  else
    let signal := { newSignal (some m.name) name loc with
        width := ty.natAbs
        signed := decide (ty < 0)
        register := true
        vlog_lvalue := some ("__next__" ++ name)
        materialize := true }
    let m1 := m.addSignal signal
    if posedge.isSome || negedge.isSome then
      match AddFF m1 signal posedge negedge nodefault loc with
      | (m2, some e) => (m2, .error e)
      | (m2, none) =>
        if async then
          match AddAsync m2 ((m2.findSignal name).getD signal) loc with
          | (m3, some e) => (m3, .error e)
          | (m3, none) => (m3, .ok ((m3.findSignal name).getD signal))
        else
          (m2, .ok ((m2.findSignal name).getD signal))
    else
      if async then
        match AddAsync m1 signal loc with
        | (m2, some e) => (m2, .error e)
        | (m2, none) => (m2, .ok ((m2.findSignal name).getD signal))
      else
        (m1, .ok signal)

/-- `AddOutput` (Chipy.py lines 774-802), integer-type single-name case.
Identical to `AddReg` except that the fresh signal additionally carries
`outport := true` (lines 788-794 set `outport` and then the same
register fields as `AddReg`). -/
def AddOutput (m : ChipyModule) (name : String) (ty : Int)
    (posedge negedge : Option String) (nodefault : Bool) (async : Bool) (loc : String) :
    ChipyModule × Except PyErr SignalInfo :=
  if (m.findSignal name).isSome then
    (m, .error (.chipyError ("Signal name " ++ name ++ " already in use in module " ++ m.name)))
  else
    let signal := { newSignal (some m.name) name loc with
        width := ty.natAbs
        signed := decide (ty < 0)
        outport := true
        register := true
        vlog_lvalue := some ("__next__" ++ name)
        materialize := true }
    let m1 := m.addSignal signal
    if posedge.isSome || negedge.isSome then
      match AddFF m1 signal posedge negedge nodefault loc with
      | (m2, some e) => (m2, .error e)
      | (m2, none) =>
        if async then
          match AddAsync m2 ((m2.findSignal name).getD signal) loc with
          | (m3, some e) => (m3, .error e)
          | (m3, none) => (m3, .ok ((m3.findSignal name).getD signal))
        else
          (m2, .ok ((m2.findSignal name).getD signal))
    else
      if async then
        match AddAsync m1 signal loc with
        | (m2, some e) => (m2, .error e)
        | (m2, none) => (m2, .ok ((m2.findSignal name).getD signal))
      else
        (m1, .ok signal)

/- ===================================================================
   Driver union-find and Verilog emission (ChipyModule.write_verilog)
   =================================================================== -/

/-- `UnionFind_Find` (Chipy.py lines 265-268) as a pure function.  The
source's recursive find also performs path compression; compression only
rewrites parent links onto the root that is returned anyway, so the
returned root is unchanged — the pure version reproduces it given enough
fuel (the fuel only needs to exceed the longest parent chain; `ufFuel`
below is a generous bound). -/
def ufFind (parent : List Nat) : Nat → Nat → Nat
  | 0, i => i
  | fuel+1, i =>
    let p := parent.getD i i
    if p = i then i else ufFind parent fuel p

/-- `UnionFind_Union` (Chipy.py lines 270-273): link the root of `idx1`
below the root of `idx2`. -/
def ufUnion (parent : List Nat) (fuel : Nat) (idx1 idx2 : Nat) : List Nat :=
  let r1 := ufFind parent fuel idx1
  let r2 := ufFind parent fuel idx2
  parent.set r1 r2

/-- The mutable state of the grouping loop: `snippet_parent` and the
first-occurrence dict `lvalue_idx` (Chipy.py lines 262-263). -/
structure UFState where
  parent : List Nat
  lvalue_idx : List (String × Nat)
deriving Repr, DecidableEq

/-- Dict lookup in `lvalue_idx`. -/
def lvLookup (l : List (String × Nat)) (k : String) : Option Nat :=
  (l.find? (fun p => p.1 = k)).map (fun p => p.2)

/-- Body of the inner loop over one snippet's lvalue names
(Chipy.py lines 277-281): record a first occurrence, or union with it. -/
def ufProcessLval (fuel idx : Nat) (st : UFState) (lval : String) : UFState :=
  match lvLookup st.lvalue_idx lval with
  | none => { st with lvalue_idx := st.lvalue_idx ++ [(lval, idx)] }
  | some j => { st with parent := ufUnion st.parent fuel idx j }

/-- One iteration of the outer loop (Chipy.py lines 275-281): append the
self-parent entry for `idx`, then process its lvalue names. -/
def ufProcessSnippet (fuel : Nat) (st : UFState) (idx : Nat) (lvals : List String) : UFState :=
  lvals.foldl (ufProcessLval fuel idx) { st with parent := st.parent ++ [idx] }

/-- The outer loop over `snippet_db`, carried by the list of per-snippet
lvalue-name lists with `idx` counting from the given start. -/
def ufBuildAux (fuel : Nat) : UFState → Nat → List (List String) → UFState
  | st, _, [] => st
  | st, idx, lv :: rest => ufBuildAux fuel (ufProcessSnippet fuel st idx lv) (idx+1) rest

/-- Fuel bound for `ufFind`: each union lengthens the longest parent
chain by at most one, so snippet count plus total lvalue-occurrence
count is always sufficient. -/
def ufFuel (snips : List ChipySnippet) : Nat :=
  snips.length + (snips.map (fun s => s.lvalue_signals.length)).sum

/-- Run the grouping loop of `write_verilog` on `snippet_db`
(Chipy.py lines 261-281). -/
def ufBuild (snips : List ChipySnippet) : UFState :=
  ufBuildAux (ufFuel snips) { parent := [], lvalue_idx := [] } 0
    (snips.map (fun s => s.lvalue_signals))

/-- The union-find root of snippet `i` after the grouping loop
(`UnionFind_Find(idx)` at Chipy.py line 286). -/
def ufRoot (snips : List ChipySnippet) (i : Nat) : Nat :=
  ufFind (ufBuild snips).parent (ufFuel snips) i

/-- Append index `i` to the group keyed by root `r`, creating the group
at the end on first sight (`snippet_groups` dict, Chipy.py lines 283-289;
Python dicts preserve insertion order). -/
def insertGroup (gs : List (Nat × List Nat)) (r : Nat) (i : Nat) : List (Nat × List Nat) :=
  if gs.any (fun g => g.1 = r) then
    gs.map (fun g => if g.1 = r then (g.1, g.2 ++ [i]) else g)
  else
    gs ++ [(r, [i])]

/-- The emitted groups: for each root (in order of first appearance) the
indices into `snippet_db` of the snippets it collects. -/
def snippetGroups (snips : List ChipySnippet) : List (Nat × List Nat) :=
  (List.range snips.length).foldl (fun gs i => insertGroup gs (ufRoot snips i) i) []

/-- Emission of the grouped combinational blocks (Chipy.py lines
291-297): one `always @*` block per group, containing every member
snippet's text lines in order. -/
def emitAlwaysGroups (snips : List ChipySnippet) : List String :=
  (snippetGroups snips).foldl (fun acc g =>
    acc ++ ["  always @* begin"] ++
      (g.2.foldl (fun ls i => ls ++ (snips.getD i newSnippet).text_lines) []) ++
      ["  end"]) []

/-- Insertion into a name-sorted list (for `sorted(...items())`). -/
def insertSorted {α : Type} (key : α → String) (x : α) : List α → List α
  | [] => [x]
  | y :: ys => if key y < key x then y :: insertSorted key x ys else x :: y :: ys

/-- Insertion sort by a string key, modelling Python `sorted` over dict
items keyed by name. -/
def sortByKey {α : Type} (key : α → String) : List α → List α
  | [] => []
  | x :: xs => insertSorted key x (sortByKey key xs)

/-- Memory declaration line (Chipy.py line 208). -/
def memoryWireLine (mem : ChipyMemory) : String :=
  "  " ++ (if mem.signed then "signed " else "") ++ "reg [" ++ toString (mem.width - 1) ++
    ":0] " ++ mem.name ++ " [0:" ++ toString (mem.depth - 1) ++ "]; // " ++ mem.codeloc

/-- Accumulators of the signal loop of `write_verilog` (Chipy.py lines
202-204). -/
structure EmitAcc where
  portlist : List String
  wirelist : List String
  assignlist : List String
deriving Repr, DecidableEq

/-- Port/wire/assign declaration lines for one materialized signal
(Chipy.py lines 213-231). -/
def sigDeclAcc (signal : SignalInfo) (acc : EmitAcc) : EmitAcc :=
  if signal.inport || signal.outport then
    let pt0 := "inout"
    let pt1 := if !signal.inport then "output" else pt0
    let pt2 := if !signal.outport then "input" else pt1
    let pt3 := if signal.signed then "signed " ++ pt2 else pt2
    let pt4 := if signal.vlog_reg then pt3 ++ " reg" else pt3
    if signal.width > 1 then
      { acc with portlist := acc.portlist ++ ["  " ++ pt4 ++ " [" ++
          toString (signal.width - 1) ++ ":0] " ++ signal.name ++ " /* " ++
          signal.codeloc ++ " */"] }
    else
      { acc with portlist := acc.portlist ++ ["  " ++ pt4 ++ " " ++ signal.name ++
          " /* " ++ signal.codeloc ++ " */"] }
  else
    let wt := if signal.vlog_reg then "reg" else "wire"
    let acc1 :=
      if signal.width > 1 then
        { acc with wirelist := acc.wirelist ++ ["  " ++ wt ++ " [" ++
            toString (signal.width - 1) ++ ":0] " ++ signal.name ++ "; // " ++
            signal.codeloc] }
      else
        { acc with wirelist := acc.wirelist ++ ["  " ++ wt ++ " " ++ signal.name ++
            "; // " ++ signal.codeloc] }
    match signal.vlog_rvalue with
    | some rv =>
      { acc1 with assignlist := acc1.assignlist ++ ["  assign " ++ signal.name ++
          " = " ++ rv ++ "; // " ++ signal.codeloc] }
    | none => acc1

/-- The error value produced by the register completeness check for an
offending register (Chipy.py lines 232-236): the message names the
offending register as `<module>.<name>`; formatting `signal.module.name`
would itself raise `AttributeError` for a signal with no module. -/
def registerFailure (s : SignalInfo) : PyErr :=
  if s.gotassign = false then
    match s.module with
    | none => .attributeError
    | some mn => .chipyError ("Register without assignment: " ++ mn ++ "." ++ s.name)
  else
    match s.module with
    | none => .attributeError
    | some mn => .chipyError ("Register without synchronization element: " ++ mn ++ "." ++ s.name)

/-- Register completeness check plus shadow-reg declaration
(Chipy.py lines 232-240). -/
def regCheck (signal : SignalInfo) (acc : EmitAcc) : Except PyErr EmitAcc :=
  if signal.register then
    if !signal.gotassign then
      .error (registerFailure signal)
    else if !signal.regaction then
      .error (registerFailure signal)
    else if signal.width > 1 then
      .ok { acc with wirelist := acc.wirelist ++ ["  reg [" ++
        toString (signal.width - 1) ++ ":0] " ++ optStr signal.vlog_lvalue ++ "; // " ++
        signal.codeloc] }
    else
      .ok { acc with wirelist := acc.wirelist ++ ["  reg " ++
        optStr signal.vlog_lvalue ++ "; // " ++ signal.codeloc] }
  else
    .ok acc

/-- The signal loop of `write_verilog` (Chipy.py lines 210-240): walk
the name-sorted signals, skip unmaterialized ones, accumulate
declaration lines and run the register checks, failing fast on the
first offending register. -/
def emitSignals (acc : EmitAcc) : List SignalInfo → Except PyErr EmitAcc
  | [] => .ok acc
  | signal :: rest =>
    if !signal.materialize then
      emitSignals acc rest
    else
      match regCheck signal (sigDeclAcc signal acc) with
      | .error e => .error e
      | .ok acc1 => emitSignals acc1 rest

/-- Remove the final character of the last line (the trailing-comma strip
at Chipy.py line 247). -/
def stripLastChar (lines : List String) : List String :=
  match lines.reverse with
  | [] => []
  | x :: xs => xs.reverse ++ [x.dropRight 1]

/-- Rendering of one recorded instance (Chipy.py lines 242-248). -/
def instLines (inst : String × String × List InstPort × String) : List String :=
  let header := "  " ++ inst.2.1 ++ " " ++ inst.1 ++ " ( // " ++ inst.2.2.2
  let members := inst.2.2.1.map (fun p =>
    "    ." ++ p.member ++ "(" ++ (match p.portalias with
      | none => p.sigName
      | some a => a) ++ "),")
  stripLastChar (header :: members) ++ ["  );"]

/-- Rendering of one memory's clocked block (Chipy.py lines 305-312). -/
def memoryBlock (mem : ChipyMemory) : List String :=
  (match mem.posedge with
    | some p => ["  always @(posedge " ++ p ++ ") begin"]
    | none => []) ++
  (match mem.negedge with
    | some n => ["  always @(negedge " ++ n ++ ") begin"]
    | none => []) ++
  mem.regactions.map (fun l => "    " ++ l) ++ ["  end"]

/-- `ChipyModule.write_verilog` (Chipy.py lines 201-314) as a function
from the module state to the emitted lines.  All list-building and the
register checks happen before the first `print`, so a failing check
yields an error with no output at all (in particular no completed module
body). -/
def ChipyModule.write_verilog (m : ChipyModule) : Except PyErr (List String) :=
  let wire0 := (sortByKey (fun mem => mem.name) m.memories).map memoryWireLine
  match emitSignals { portlist := [], wirelist := wire0, assignlist := [] }
      (sortByKey (fun s => s.name) m.signals) with
  | .error e => .error e
  | .ok acc =>
    let snippet_db := m.init_snippets ++ m.code_snippets
    .ok (["", "module " ++ m.name ++ " ("] ++
      [String.intercalate ",\n" acc.portlist] ++ [");"] ++
      acc.wirelist ++ acc.assignlist ++
      emitAlwaysGroups snippet_db ++
      m.regactions ++
      (m.instances.map instLines).flatten ++
      (m.memories.map memoryBlock).flatten ++
      ["endmodule"])

/- ===================================================================
   Expression graph, context stack, Assign and ElseIf
   =================================================================== -/

mutual
/-- A `ChipySignal` viewed as a node of the expression graph, carrying
the attributes `Assign`, `set_materialize` and `get_deps` read, with its
operand signals (`deps` dict values) as subterms.  The `deps` are
rendered as a cons-list (`SigDeps`) so all recursions are structural. -/
inductive SigExpr where
  | mk (name : String) (module : Option String) (vlogLvalue : Option String)
      (vlogRvalue : Option String) (memoryName : Option String) (deps : SigDeps)
/-- Dependency list of a `SigExpr`. -/
inductive SigDeps where
  | nil : SigDeps
  | cons (head : SigExpr) (tail : SigDeps) : SigDeps
end

/-- Name accessor. -/
def SigExpr.name : SigExpr → String
  | .mk n _ _ _ _ _ => n

/-- Owning-module accessor. -/
def SigExpr.module : SigExpr → Option String
  | .mk _ md _ _ _ _ => md

/-- `vlog_lvalue` accessor. -/
def SigExpr.vlogLvalue : SigExpr → Option String
  | .mk _ _ lv _ _ _ => lv

/-- `vlog_rvalue` accessor. -/
def SigExpr.vlogRvalue : SigExpr → Option String
  | .mk _ _ _ rv _ _ => rv

/-- `memory` accessor (the owning memory's name, if any). -/
def SigExpr.memoryName : SigExpr → Option String
  | .mk _ _ _ _ mem _ => mem

mutual
/-- All nodes of the expression tree (the values of `get_deps`,
Chipy.py lines 403-407: the signal itself plus, recursively, the nodes
of each dependency). -/
def SigExpr.nodes : SigExpr → List SigExpr
  | .mk n md lv rv mem deps => .mk n md lv rv mem deps :: SigDeps.nodes deps
/-- Nodes of all the trees in a dependency list. -/
def SigDeps.nodes : SigDeps → List SigExpr
  | .nil => []
  | .cons h t => SigExpr.nodes h ++ SigDeps.nodes t
end

/-- One frame of the open-context stack: the owning module's name and
the index (into that module's `code_snippets`) of the snippet the
context writes to, if it has one (`ChipyContext.module` /
`ChipyContext.snippet`).  The parent link is the tail of the stack. -/
structure CtxFrame where
  module : Option String
  snippet : Option Nat
deriving Repr, DecidableEq

/-- The thread-local design state (`tls` in Chipy.py): modules registry,
the open-context stack (head = `ChipyCurrentContext`), the pending-else
slot, and the auto-name counter.  `constMat` carries the materialize
flags of constant signals (module `None`), which live on no module. -/
structure DesignState where
  modules : List ChipyModule
  ctxStack : List CtxFrame
  elseCtx : Option CtxFrame
  counter : Nat
  constMat : List String
deriving Repr, DecidableEq

/-- Module registry lookup (`tls.ChipyModulesDict`). -/
def DesignState.findModule (st : DesignState) (mn : String) : Option ChipyModule :=
  st.modules.find? (fun m => m.name = mn)

/-- Apply a mutation to the module named `mn` (attribute mutation of the
shared `ChipyModule` object). -/
def DesignState.updateModule (st : DesignState) (mn : String)
    (f : ChipyModule → ChipyModule) : DesignState :=
  { st with modules := st.modules.map (fun m => if m.name = mn then f m else m) }

/-- Read the `materialize` flag of the signal named `name` of `module`
(constant signals are tracked in `constMat`; an unregistered name reads
as false). -/
def DesignState.readMat (st : DesignState) (module : Option String) (name : String) : Bool :=
  match module with
  | none => st.constMat.contains name
  | some mn =>
    match st.findModule mn with
    | none => false
    | some m =>
      match m.findSignal name with
      | none => false
      | some s => s.materialize

/-- Set the `materialize` flag of the signal named `name` of `module`
(`self.materialize = True`, Chipy.py line 411). -/
def DesignState.setMatFlag (st : DesignState) (module : Option String) (name : String) :
    DesignState :=
  match module with
  | none => { st with constMat := st.constMat ++ [name] }
  | some mn =>
    st.updateModule mn (fun m =>
      m.updateSignal name (fun s => { s with materialize := true }))

mutual
/-- `ChipySignal.set_materialize` (Chipy.py lines 409-413): return if the
flag is already set, else set it and recurse into the dependencies. -/
def setMaterialize : DesignState → SigExpr → DesignState
  | st, .mk n md lv rv mem deps =>
    if st.readMat md n then st
    else setMaterializeList (st.setMatFlag md n) deps
/-- The `for dep in self.deps.values()` loop of `set_materialize`. -/
def setMaterializeList : DesignState → SigDeps → DesignState
  | st, .nil => st
  | st, .cons h t => setMaterializeList (setMaterialize st h) t
end

/-- Set the `gotassign` flag of one store signal (`lhs_dep.gotassign =
True`, Chipy.py line 1106; on a constant — module `None` — the flag is
set on an object the emitter never reads, so the store is unchanged). -/
def DesignState.setGotassignFlag (st : DesignState) (module : Option String)
    (name : String) : DesignState :=
  match module with
  | none => st
  | some mn =>
    st.updateModule mn (fun m =>
      m.updateSignal name (fun s => { s with gotassign := true }))

/-- Mark `gotassign` on every node of `lhs.get_deps()`. -/
def setGotassignAll (st : DesignState) (l : List SigExpr) : DesignState :=
  l.foldl (fun acc t => acc.setGotassignFlag t.module t.name) st

/-- Append a line (at the snippet's current indent) and merge driven
names into a snippet (`ChipyContext.add_line` body, Chipy.py
lines 109-112). -/
def snippetAddLine (snip : ChipySnippet) (line : String) (lvals : List String) :
    ChipySnippet :=
  let s1 := { snip with lvalue_signals := updateKeys snip.lvalue_signals lvals }
  { s1 with text_lines := s1.text_lines ++ [s1.indent_str ++ line] }

/-- Replace the element at index `i`. -/
def updateNth {α : Type} : List α → Nat → (α → α) → List α
  | [], _, _ => []
  | x :: xs, 0, f => f x :: xs
  | x :: xs, i+1, f => x :: updateNth xs i f

/-- `ChipyContext.pushctx` for a `ChipyContext()` with no module of its
own (Chipy.py lines 128-138): the parent is the current context (if none
is open, reading `self.parent.module` raises `AttributeError`), and
module and snippet are inherited from it. -/
def pushPlainCtx (st : DesignState) : Except PyErr DesignState :=
  match st.ctxStack with
  | [] => .error .attributeError
  | parent :: _ =>
    .ok { st with ctxStack :=
      { module := parent.module, snippet := parent.snippet } :: st.ctxStack }

/-- `ChipyContext.popctx` (Chipy.py lines 124-126). -/
def popCtx (st : DesignState) : DesignState :=
  { st with ctxStack := st.ctxStack.tail }

/-- Point the current context at snippet index `i` of its module
(`self.snippet = ChipySnippet()` aliasing in `add_line`). -/
def setHeadSnippet (st : DesignState) (i : Nat) : DesignState :=
  match st.ctxStack with
  | [] => st
  | c :: rest => { st with ctxStack := { c with snippet := some i } :: rest }

/-- `ChipyContext.add_line` (Chipy.py lines 102-112) on the current
context: create a fresh snippet in the module's `code_snippets` when the
context has none yet, merge the driven names, append the indented line.
An empty `lvals` list models the `lvalues=None` default. -/
def ctxAddLine (st : DesignState) (line : String) (lvals : List String) :
    Except PyErr DesignState :=
  match st.ctxStack with
  | [] => .error (.valueError "Trying to add line to closed context.")
  | c :: _ =>
    match c.module with
    | none => .error .attributeError
    | some mn =>
      match st.findModule mn with
      | none => .error .attributeError
      | some m =>
        match c.snippet with
        | none =>
          let idx := m.code_snippets.length
          let st1 := st.updateModule mn (fun m2 =>
            { m2 with code_snippets := m2.code_snippets ++
                [snippetAddLine newSnippet line lvals] })
          .ok (setHeadSnippet st1 idx)
        | some i =>
          .ok (st.updateModule mn (fun m2 =>
            { m2 with code_snippets :=
                updateNth m2.code_snippets i (fun sn => snippetAddLine sn line lvals) }))

/-- `Assign` (Chipy.py lines 1069-1108) on signal (non-bundle)
arguments; `Sig` on a signal is the identity.  Mutations performed
before an exception are kept in the returned state (the `with` block's
`__exit__` pops the context when the body raises). -/
def Assign (st : DesignState) (lhs rhs : SigExpr) (loc : String) :
    DesignState × Option PyErr :=
  let st1 := setMaterialize st rhs
  match lhs.memoryName with
  | some memName =>
    match lhs.module with
    | none => (st1, some .attributeError)
    | some mn =>
      let wenName := "__" ++ toString (st1.counter + 1)
      let st2 := { st1 with counter := st1.counter + 1 }
      match st2.findModule mn with
      | none => (st2, some .attributeError)
      | some mlhs =>
        if (mlhs.findSignal wenName).isSome then
          (st2, some (.chipyError ("Signal name " ++ wenName ++
            " already in use in module " ++ mn)))
        else
          let wen := { newSignal (some mn) wenName loc with
              vlog_reg := true, gotassign := true, materialize := true }
          let st3 := st2.updateModule mn (fun m => m.addSignal wen)
          let snip : ChipySnippet :=
            { indent_str := "    "
              text_lines := ["    " ++ wenName ++ " = 1'b0; // " ++ loc]
              lvalue_signals := [wenName] }
          let st4 := st3.updateModule mn (fun m =>
            { m with init_snippets := m.init_snippets ++ [snip] })
          match pushPlainCtx st4 with
          | .error e => (st4, some e)
          | .ok st5 =>
            match ctxAddLine st5 (wenName ++ " = 1'b1; // " ++ loc) [wenName] with
            | .error e => (popCtx st5, some e)
            | .ok st6 =>
              let st7 := popCtx st6
              let st8 := st7.updateModule mn (fun m =>
                { m with memories := m.memories.map (fun mem =>
                    if mem.name = memName then
                      { mem with regactions := mem.regactions ++
                        ["if (" ++ wenName ++ ") " ++ optStr lhs.vlogRvalue ++
                          " <= " ++ rhs.name ++ "; // " ++ loc] }
                    else mem) })
              (st8, none)
  | none =>
    match pushPlainCtx st1 with
    | .error e => (st1, some e)
    | .ok st2 =>
      match lhs.vlogLvalue with
      | none => (popCtx st2, some (.valueError "Trying to assign to signal with unset lvalue"))
      | some lv =>
        let st3 := setGotassignAll st2 lhs.nodes
        match ctxAddLine st3 (lv ++ " = " ++ rhs.name ++ "; // " ++ loc)
            (updateKeys [] (lhs.nodes.map SigExpr.name)) with
        | .error e => (popCtx st3, some e)
        | .ok st4 => (popCtx st4, none)

/-- `ElseIf` up to its context entry (Chipy.py lines 1155-1163): `Sig`
on the signal condition is the identity; the pending-else slot is
cleared (line 1159), the condition is materialized, and then
`tls.ChipyElseContext.block(...)` is evaluated — but the slot was just
set to `None`, so the attribute access `.block` raises
`AttributeError`.  The dead branch (reached by no state) would re-push
the pending context and emit the `else if` begin line into its
snippet. -/
def ElseIf (st : DesignState) (cond : SigExpr) (loc : String) :
    DesignState × Option PyErr :=
  let st1 := { st with elseCtx := none }
  let st2 := setMaterialize st1 cond
  match st2.elseCtx with
  | none => (st2, some .attributeError)
  | some c =>
    let st3 := { st2 with ctxStack := c :: st2.ctxStack }
    match ctxAddLine st3 ("else if (" ++ cond.name ++ ") begin // " ++ loc) [] with
    | .error e => (st3, some e)
    | .ok st4 => (st4, none)

/-- `ReachIn parent B i r`: following parent links from `i` (entry
`parent.getD i i`; an out-of-range index is its own parent, matching the
algorithm which only ever stores and follows in-range links) reaches
the self-parented root `r` within `B` steps.  This is the semantics of
`UnionFind_Find` independent of fuel. -/
inductive ReachIn (parent : List Nat) : Nat → Nat → Nat → Prop
  | root (B i : Nat) (h : parent.getD i i = i) : ReachIn parent B i i
  | step (B i r : Nat) (h : parent.getD i i ≠ i)
      (hr : ReachIn parent B (parent.getD i i) r) : ReachIn parent (B+1) i r

/-- Two indices have a common union-find root (within bound `B`). -/
def SameRootAt (parent : List Nat) (B a b : Nat) : Prop :=
  ∃ r, ReachIn parent B a r ∧ ReachIn parent B b r

/-- Well-formedness of the grouping loop state after `k` snippets with
chain bound `B`: the parent array has one entry per processed snippet,
links stay in range, every chain reaches a root within `B` steps, and
the first-occurrence dict points at processed snippets. -/
def UFOk (st : UFState) (k B : Nat) : Prop :=
  st.parent.length = k ∧
  (∀ m, m < k → st.parent.getD m m < k) ∧
  (∀ i, ∃ r, ReachIn st.parent B i r) ∧
  (∀ pr ∈ st.lvalue_idx, pr.2 < k)

/-- Total number of lvalue occurrences in the per-snippet lists: an
upper bound on the number of union operations. -/
def lvCount (L : List (List String)) : Nat :=
  (L.map List.length).sum

/-- The group fold keyed by an arbitrary root function (specialization:
`snippetGroups snips = buildGroups (ufRoot snips) snips.length`). -/
def buildGroups (root : Nat → Nat) (n : Nat) : List (Nat × List Nat) :=
  (List.range n).foldl (fun gs i => insertGroup gs (root i) i) []

/- ===================================================================
   THEOREMS
   =================================================================== -/

theorem getD_set_self (l : List Nat) (i v d : Nat) (h : i < l.length) :
    (l.set i v).getD i d = v := by
  induction l generalizing i with
  | nil => simp at h
  | cons a as ih =>
    cases i with
    | zero => rfl
    | succ i => exact ih i (by simpa using h)

theorem getD_set_ne (l : List Nat) (i j v d : Nat) (h : j ≠ i) :
    (l.set i v).getD j d = l.getD j d := by
  induction l generalizing i j with
  | nil => rfl
  | cons a as ih =>
    cases i with
    | zero =>
      cases j with
      | zero => exact absurd rfl h
      | succ j => simp [List.getD_cons_succ]
    | succ i =>
      cases j with
      | zero => simp [List.getD_cons_zero]
      | succ j =>
        simpa [List.getD_cons_succ] using ih i j (fun hh => h (by rw [hh]))

theorem getD_append_len (l : List Nat) (m : Nat) :
    (l ++ [l.length]).getD m m = l.getD m m := by
  rcases lt_trichotomy m l.length with h | h | h
  · rw [List.getD_append _ _ _ _ h]
  · subst h
    rw [List.getD_append_right _ _ _ _ (le_refl _),
        List.getD_eq_default _ _ (le_refl _)]
    simp
  · rw [List.getD_append_right _ _ _ _ (le_of_lt h),
        List.getD_eq_default _ _ (le_of_lt h)]
    have : l.length ≤ m - l.length + l.length := by omega
    rw [List.getD_eq_default]
    simp
    omega

theorem ReachIn.mono {parent : List Nat} {B B2 i r : Nat}
    (h : ReachIn parent B i r) (hB : B ≤ B2) : ReachIn parent B2 i r := by
  induction h generalizing B2 with
  | root B i hf => exact .root B2 i hf
  | step B i r hne hr ih =>
    cases B2 with
    | zero => omega
    | succ B2 => exact .step B2 i r hne (ih (by omega))

theorem ReachIn.rootFix {parent : List Nat} {B i r : Nat}
    (h : ReachIn parent B i r) : parent.getD r r = r := by
  induction h with
  | root _ _ hf => exact hf
  | step _ _ _ _ _ ih => exact ih

theorem ReachIn.unique {parent : List Nat} {B B2 i r r2 : Nat}
    (h : ReachIn parent B i r) (h2 : ReachIn parent B2 i r2) : r = r2 := by
  induction h generalizing B2 r2 with
  | root B i hf =>
    cases h2 with
    | root => rfl
    | step _ _ _ hne => exact absurd hf hne
  | step B i r hne hr ih =>
    cases h2 with
    | root _ _ hf => exact absurd hf hne
    | step _ _ _ _ hr2 => exact ih hr2

theorem ufFind_eq_of_reachIn {parent : List Nat} {B fuel i r : Nat}
    (h : ReachIn parent B i r) (hB : B ≤ fuel) : ufFind parent fuel i = r := by
  induction h generalizing fuel with
  | root B i hf =>
    cases fuel with
    | zero => rfl
    | succ fuel =>
      have he : ufFind parent (fuel+1) i =
          if parent.getD i i = i then i else ufFind parent fuel (parent.getD i i) := rfl
      rw [he, if_pos hf]
  | step B i r hne hr ih =>
    cases fuel with
    | zero => omega
    | succ fuel =>
      have he : ufFind parent (fuel+1) i =
          if parent.getD i i = i then i else ufFind parent fuel (parent.getD i i) := rfl
      rw [he, if_neg hne]
      exact ih (by omega)

theorem ReachIn.congr {p1 p2 : List Nat} (hpt : ∀ m, p1.getD m m = p2.getD m m)
    {B i r : Nat} (h : ReachIn p1 B i r) : ReachIn p2 B i r := by
  induction h with
  | root B i hf => exact .root B i ((hpt i).symm.trans hf)
  | step B i r hne hr ih =>
    refine .step B i r ?_ ?_
    · rw [← hpt i]
      exact hne
    · rw [← hpt i]
      exact ih

theorem ReachIn.root_lt {parent : List Nat} {B i r : Nat}
    (h : ReachIn parent B i r)
    (hb : ∀ m, m < parent.length → parent.getD m m < parent.length)
    (hi : i < parent.length) : r < parent.length := by
  induction h with
  | root _ i _ => exact hi
  | step _ i r hne hr ih => exact ih (hb i hi)

/-- Linking root `r1` under root `r2` sends every old root `r` to
`if r = r1 then r2 else r`, at the cost of one extra chain step. -/
theorem ReachIn.set_root {parent : List Nat} {r1 r2 : Nat}
    (h1 : parent.getD r1 r1 = r1) (h2 : parent.getD r2 r2 = r2)
    (hlt : r1 < parent.length) (hne : r1 ≠ r2) {B i r : Nat}
    (h : ReachIn parent B i r) :
    ReachIn (parent.set r1 r2) (B+1) i (if r = r1 then r2 else r) := by
  induction h with
  | root B i hf =>
    by_cases hir : i = r1
    · subst hir
      rw [if_pos rfl]
      refine ReachIn.step B i r2 ?_ ?_
      · rw [getD_set_self _ _ _ _ hlt]
        exact fun hh => hne hh.symm
      · rw [getD_set_self _ _ _ _ hlt]
        exact ReachIn.root B r2
          (by rw [getD_set_ne _ _ _ _ _ (fun hh => hne hh.symm)]; exact h2)
    · rw [if_neg hir]
      exact ReachIn.root (B+1) i (by rw [getD_set_ne _ _ _ _ _ hir]; exact hf)
  | step B i r hne2 hr ih =>
    have hir : i ≠ r1 := by
      intro hh
      subst hh
      exact hne2 h1
    refine ReachIn.step (B+1) i _ ?_ ?_
    · rw [getD_set_ne _ _ _ _ _ hir]
      exact hne2
    · rw [getD_set_ne _ _ _ _ _ hir]
      exact ih

/-- Helper: `regs` keeps exactly the register leaves (with their paths). -/
theorem leaves_regs (B : ChipyBundle) :
    (ChipyBundle.regs B).leaves = B.leaves.filter (fun x => x.2.register) := by
  induction B with
  | nil => rfl
  | consSig n s rest ih =>
    by_cases h : s.register
    · simp [ChipyBundle.regs, ChipyBundle.leaves, h, ih, List.filter]
    · simp [ChipyBundle.regs, ChipyBundle.leaves, h, ih, List.filter]
  | consSub n b rest ihb ihr =>
    simp only [ChipyBundle.regs, ChipyBundle.leaves, ihb, ihr, List.filter_append]
    rw [List.filter_map]
    rfl

/-- Helper: `nonregs` keeps exactly the non-register leaves. -/
theorem leaves_nonregs (B : ChipyBundle) :
    (ChipyBundle.nonregs B).leaves = B.leaves.filter (fun x => !x.2.register) := by
  induction B with
  | nil => rfl
  | consSig n s rest ih =>
    by_cases h : s.register
    · simp [ChipyBundle.nonregs, ChipyBundle.leaves, h, ih, List.filter]
    · simp [ChipyBundle.nonregs, ChipyBundle.leaves, h, ih, List.filter]
  | consSub n b rest ihb ihr =>
    simp only [ChipyBundle.nonregs, ChipyBundle.leaves, ihb, ihr, List.filter_append]
    rw [List.filter_map]
    rfl

/-- C9: for every bundle `B`, `regs B` and `nonregs B` partition the leaf
signals of `B`: the register leaves appear (under the same member path)
exactly in `regs B`, the non-register leaves exactly in `nonregs B`, and
together they exhaust the leaves of `B`. -/
theorem bundle_regs_nonregs_partition (B : ChipyBundle) :
    (ChipyBundle.regs B).leaves = B.leaves.filter (fun x => x.2.register) ∧
    (ChipyBundle.nonregs B).leaves = B.leaves.filter (fun x => !x.2.register) ∧
    (∀ p s, (p, s) ∈ B.leaves → s.register = true →
      (p, s) ∈ (ChipyBundle.regs B).leaves ∧ (p, s) ∉ (ChipyBundle.nonregs B).leaves) ∧
    (∀ p s, (p, s) ∈ B.leaves → s.register = false →
      (p, s) ∈ (ChipyBundle.nonregs B).leaves ∧ (p, s) ∉ (ChipyBundle.regs B).leaves) ∧
    (∀ x, x ∈ B.leaves ↔
      (x ∈ (ChipyBundle.regs B).leaves ∨ x ∈ (ChipyBundle.nonregs B).leaves)) := by
  refine ⟨leaves_regs B, leaves_nonregs B, ?_, ?_, ?_⟩
  · intro p s hmem hreg
    constructor
    · rw [leaves_regs]
      exact List.mem_filter.mpr ⟨hmem, by simp [hreg]⟩
    · rw [leaves_nonregs]
      intro hc
      have := (List.mem_filter.mp hc).2
      simp [hreg] at this
  · intro p s hmem hreg
    constructor
    · rw [leaves_nonregs]
      exact List.mem_filter.mpr ⟨hmem, by simp [hreg]⟩
    · rw [leaves_regs]
      intro hc
      have := (List.mem_filter.mp hc).2
      simp [hreg] at this
  · intro x
    rw [leaves_regs, leaves_nonregs]
    constructor
    · intro hx
      by_cases h : x.2.register
      · exact Or.inl (List.mem_filter.mpr ⟨hx, by simp [h]⟩)
      · exact Or.inr (List.mem_filter.mpr ⟨hx, by simp [h]⟩)
    · intro hx
      rcases hx with hx | hx
      · exact (List.mem_filter.mp hx).1
      · exact (List.mem_filter.mp hx).1

/-- A concrete register leaf used by witnesses. -/
def sampleRegSignal : SignalInfo :=
  { newSignal (some "m") "q" "t.py:1" with register := true }

/-- A concrete wire leaf used by witnesses. -/
def sampleWireSignal : SignalInfo :=
  newSignal (some "m") "w" "t.py:2"

/-- Witness for C9 at a concrete two-leaf bundle: the register leaf lands
in `regs`, the wire leaf in `nonregs`. -/
theorem bundle_regs_nonregs_partition_witness :
    (["q"], sampleRegSignal) ∈
      (ChipyBundle.regs (ChipyBundle.consSig "q" sampleRegSignal
        (ChipyBundle.consSig "w" sampleWireSignal ChipyBundle.nil))).leaves ∧
    (["w"], sampleWireSignal) ∈
      (ChipyBundle.nonregs (ChipyBundle.consSig "q" sampleRegSignal
        (ChipyBundle.consSig "w" sampleWireSignal ChipyBundle.nil))).leaves := by
  refine ⟨?_, ?_⟩
  · exact ((bundle_regs_nonregs_partition _).2.2.1 ["q"] sampleRegSignal
      (by decide) (by decide)).1
  · exact ((bundle_regs_nonregs_partition _).2.2.2.1 ["w"] sampleWireSignal
      (by decide) (by decide)).1

/-- C5: whenever a binary operator successfully builds its result signal,
the default (arithmetic/bitwise) profile yields width `max a.width
b.width` and signedness `a.signed && b.signed`, while the shift profile
(`leftwidth`, used by `<<<` and `>>>`) yields the left operand's width
and signedness.  The final conjuncts record that the arithmetic wrappers
and the shift wrappers instantiate exactly these two profiles. -/
theorem binary_op_width_signedness (opArith opShift : String) (a b : SignalInfo)
    (current : Option String) (autoname loc : String) (s t : SignalInfo)
    (harith : ChipyBinaryOp opArith a b current autoname loc true false = Except.ok s)
    (hshift : ChipyBinaryOp opShift a b current autoname loc true true = Except.ok t) :
    s.width = max a.width b.width ∧ s.signed = (a.signed && b.signed) ∧
    t.width = a.width ∧ t.signed = a.signed ∧
    (∀ a' b' cur n l, sigAdd a' b' cur n l = ChipyBinaryOp "+" a' b' cur n l true false) ∧
    (∀ a' b' cur n l, sigShl a' b' cur n l = ChipyBinaryOp "<<<" a' b' cur n l true true) ∧
    (∀ a' b' cur n l, sigShr a' b' cur n l = ChipyBinaryOp ">>>" a' b' cur n l true true) := by
  unfold ChipyBinaryOp at harith hshift
  cases hm : ChipySameModule current [a.module, b.module] with
  | error e =>
    rw [hm] at harith
    cases harith
  | ok m =>
    rw [hm] at harith hshift
    simp only [Except.ok.injEq] at harith hshift
    subst harith
    subst hshift
    refine ⟨by simp, by simp [Bool.and_true], by simp, by simp [Bool.and_true],
      fun _ _ _ _ _ => rfl, fun _ _ _ _ _ => rfl, fun _ _ _ _ _ => rfl⟩

/-- Concrete signal in module `m` used by several witnesses below. -/
def sampleSigA : SignalInfo :=
  { newSignal (some "m") "a" "t.py:3" with width := 8, signed := true }

/-- Second concrete operand. -/
def sampleSigB : SignalInfo :=
  { newSignal (some "m") "b" "t.py:4" with width := 4, signed := false }

/-- Witness for C5: at concrete 8-bit signed / 4-bit unsigned operands
inside module `m`, both operator profiles succeed and the widths and
signedness come out as claimed. -/
theorem binary_op_width_signedness_witness :
    ∃ s t, ChipyBinaryOp "+" sampleSigA sampleSigB (some "m") "__1" "t.py:5" true false
        = Except.ok s ∧
      ChipyBinaryOp "<<<" sampleSigA sampleSigB (some "m") "__1" "t.py:5" true true
        = Except.ok t ∧
      s.width = max sampleSigA.width sampleSigB.width ∧
      s.signed = (sampleSigA.signed && sampleSigB.signed) ∧
      t.width = sampleSigA.width ∧ t.signed = sampleSigA.signed := by
  obtain ⟨s, hs⟩ : ∃ s,
      ChipyBinaryOp "+" sampleSigA sampleSigB (some "m") "__1" "t.py:5" true false
        = Except.ok s := ⟨_, rfl⟩
  obtain ⟨t, ht⟩ : ∃ t,
      ChipyBinaryOp "<<<" sampleSigA sampleSigB (some "m") "__1" "t.py:5" true true
        = Except.ok t := ⟨_, rfl⟩
  have h := binary_op_width_signedness "+" "<<<" sampleSigA sampleSigB (some "m")
    "__1" "t.py:5" s t hs ht
  exact ⟨s, t, hs, ht, h.1, h.2.1, h.2.2.1, h.2.2.2.1⟩

/-- C6: in `Connect` on plain signals, a signal qualifies as master iff
it is not a register or already has `gotassign` or `regaction`;
`Connect` errors when zero or at least two signals qualify; with exactly
one master every slave gets the structural assign line appended to the
module's regactions, its `portalias` set to the master's name, and its
register flag cleared (via `slaveUpdate`). -/
theorem connect_masters_slaves (current : Option String) (cur : String)
    (hcur : current = some cur) (regactions : List String)
    (first second : SignalInfo) (rest : List SignalInfo) (loc : String) :
    (∀ s : SignalInfo,
      checkreg s = true ↔ (s.register = false ∨ s.gotassign = true ∨ s.regaction = true)) ∧
    ((first :: second :: rest).filter checkreg = [] →
      Connect current regactions first second rest loc =
        Except.error (.chipyError "Could not identify a master signal in Connect statement")) ∧
    (2 ≤ ((first :: second :: rest).filter checkreg).length →
      ∃ msg, Connect current regactions first second rest loc =
        Except.error (.chipyError msg)) ∧
    (∀ master, (first :: second :: rest).filter checkreg = [master] →
      Connect current regactions first second rest loc =
        Except.ok ((first :: second :: rest).map
            (fun s => if checkreg s then s else slaveUpdate master s),
          regactions ++ ((first :: second :: rest).filter (fun s => !checkreg s)).map
            (fun s => "  assign " ++ s.name ++ " = " ++ master.name ++ "; // " ++ loc))) := by
  subst hcur
  refine ⟨?_, ?_, ?_, ?_⟩
  · intro s
    simp only [checkreg, Bool.or_eq_true, Bool.not_eq_true']
    tauto
  · intro h
    simp only [Connect, h]
  · intro h
    rcases hm : (first :: second :: rest).filter checkreg with _ | ⟨x, _ | ⟨y, zs⟩⟩
    · rw [hm] at h
      simp at h
    · rw [hm] at h
      simp at h
    · refine ⟨"Multiple possible masters in Connect statement: " ++
        String.intercalate "," ((x :: y :: zs).map (fun sig => sig.name)), ?_⟩
      simp only [Connect, hm]
  · intro master hm
    simp only [Connect, hm]

/-- A register signal that has not been assigned or synchronized: the
prototypical `Connect` slave. -/
def sampleSlaveSignal : SignalInfo :=
  { newSignal (some "m") "s" "t.py:6" with
      register := true, vlog_lvalue := some "__next__s" }

/-- Witness for C6: connecting the wire `w` (master) with the fresh
register `s` (slave) succeeds, appends the structural assign, aliases the
slave to the master and clears its register flag. -/
theorem connect_masters_slaves_witness :
    Connect (some "m") [] sampleWireSignal sampleSlaveSignal [] "t.py:7" =
      Except.ok ([sampleWireSignal, slaveUpdate sampleWireSignal sampleSlaveSignal],
        ["  assign s = w; // t.py:7"]) ∧
    (slaveUpdate sampleWireSignal sampleSlaveSignal).portalias = some "w" ∧
    (slaveUpdate sampleWireSignal sampleSlaveSignal).register = false := by
  have h := (connect_masters_slaves (some "m") "m" rfl [] sampleWireSignal
    sampleSlaveSignal [] "t.py:7").2.2.2 sampleWireSignal (by decide)
  refine ⟨?_, by decide, by decide⟩
  rw [h]
  rfl

/-- C4 (code bug): for every register signal lacking a regaction, calling
`AddFF` with only `negedge=clk` does not append the claimed
`always @(negedge <clk>) <name> <= __next__<name>;` line: the source
formats `posedge.name` on the negedge branch while `posedge` is `None`,
so Python raises `AttributeError`.  Only the init-snippet built before
the crash persists; the module's regactions and the stored signal flags
(in particular `regaction` and `vlog_reg`) are untouched. -/
theorem addFF_negedge_only_crashes (m : ChipyModule) (sig : SignalInfo)
    (clk : String) (nodefault : Bool) (loc : String)
    (hreg : sig.register = true) (hra : sig.regaction = false) :
    AddFF m sig none (some clk) nodefault loc =
      ({ m with init_snippets := m.init_snippets ++ [ffInitSnippet sig nodefault loc] },
        some PyErr.attributeError) ∧
    (AddFF m sig none (some clk) nodefault loc).1.regactions = m.regactions ∧
    (AddFF m sig none (some clk) nodefault loc).1.signals = m.signals := by
  have h : AddFF m sig none (some clk) nodefault loc =
      ({ m with init_snippets := m.init_snippets ++ [ffInitSnippet sig nodefault loc] },
        some PyErr.attributeError) := by
    unfold AddFF
    rw [hreg, hra]
    rfl
  exact ⟨h, by rw [h], by rw [h]⟩

/-- Witness for C4 at a concrete register in an empty module: the call
errors with `AttributeError` and appends no regaction line. -/
theorem addFF_negedge_only_crashes_witness :
    (AddFF (emptyModule "m" "t.py:0") sampleSlaveSignal none (some "clk") false "t.py:9").2 =
      some PyErr.attributeError ∧
    (AddFF (emptyModule "m" "t.py:0") sampleSlaveSignal none (some "clk") false "t.py:9").1.regactions
      = [] := by
  have h := addFF_negedge_only_crashes (emptyModule "m" "t.py:0") sampleSlaveSignal
    "clk" false "t.py:9" (by decide) (by decide)
  exact ⟨by rw [h.1], h.2.1⟩

/-- C7 counterexample: plain `AddOutput` (no posedge, negedge or async)
returns a signal with `register = true` (Chipy.py line 792 sets it
unconditionally), contradicting the claim that the result is not flagged
as a register. -/
theorem addOutput_plain_counterexample :
    ∃ s, (AddOutput (emptyModule "m" "t.py:0") "y" 8 none none false false "t.py:10").2
        = Except.ok s ∧ s.register = true ∧ s.outport = true ∧ s.regaction = false := by
  exact ⟨_, rfl, rfl, rfl, rfl⟩

/-- C7 (amended): `AddOutput` without posedge/negedge/async behaves
exactly as `AddReg` with the `outport` flag added — in particular the
returned signal has `register = true` and no synchronization element
(`regaction = false`); it only becomes a plain output wire if a later
`Connect` clears its register flag. -/
theorem addOutput_plain_is_addReg_with_outport (m : ChipyModule) (name : String)
    (ty : Int) (nodefault : Bool) (loc : String)
    (hfresh : m.findSignal name = none) :
    ∃ sR, AddReg m name ty none none nodefault false loc = (m.addSignal sR, Except.ok sR) ∧
      AddOutput m name ty none none nodefault false loc =
        (m.addSignal { sR with outport := true }, Except.ok { sR with outport := true }) ∧
      sR.register = true ∧ sR.regaction = false ∧ sR.outport = false ∧
      sR.vlog_lvalue = some ("__next__" ++ name) ∧ sR.materialize = true := by
  refine ⟨{ newSignal (some m.name) name loc with
      width := ty.natAbs
      signed := decide (ty < 0)
      register := true
      vlog_lvalue := some ("__next__" ++ name)
      materialize := true }, ?_, ?_, rfl, rfl, rfl, rfl, rfl⟩
  · unfold AddReg
    rw [hfresh]
    rfl
  · unfold AddOutput
    rw [hfresh]
    rfl

/-- Witness for the amended C7 at a concrete call on an empty module. -/
theorem addOutput_plain_is_addReg_with_outport_witness :
    ∃ sR, AddReg (emptyModule "m" "t.py:0") "y" 8 none none false false "t.py:10" =
        ((emptyModule "m" "t.py:0").addSignal sR, Except.ok sR) ∧
      AddOutput (emptyModule "m" "t.py:0") "y" 8 none none false false "t.py:10" =
        ((emptyModule "m" "t.py:0").addSignal { sR with outport := true },
          Except.ok { sR with outport := true }) ∧
      sR.register = true := by
  obtain ⟨sR, h1, h2, h3, _h4, _h5, _h6, _h7⟩ :=
    addOutput_plain_is_addReg_with_outport (emptyModule "m" "t.py:0") "y" 8 false "t.py:10" rfl
  exact ⟨sR, h1, h2, h3⟩

theorem sameRootAt_mono {parent : List Nat} {B B2 a b : Nat}
    (h : SameRootAt parent B a b) (hB : B ≤ B2) : SameRootAt parent B2 a b := by
  obtain ⟨r, ha, hb⟩ := h
  exact ⟨r, ha.mono hB, hb.mono hB⟩

theorem sameRootAt_congr {p1 p2 : List Nat} (hpt : ∀ m, p1.getD m m = p2.getD m m)
    {B a b : Nat} (h : SameRootAt p1 B a b) : SameRootAt p2 B a b := by
  obtain ⟨r, ha, hb⟩ := h
  exact ⟨r, ha.congr hpt, hb.congr hpt⟩

/-- Appending the self-parented entry for the next snippet leaves every
chain untouched and preserves well-formedness. -/
theorem UFOk.append {st : UFState} {k B : Nat} (h : UFOk st k B) :
    (∀ m, (st.parent ++ [k]).getD m m = st.parent.getD m m) ∧
    UFOk { st with parent := st.parent ++ [k] } (k+1) B := by
  obtain ⟨hlen, hbound, hg, hlv⟩ := h
  have hpt : ∀ m, (st.parent ++ [k]).getD m m = st.parent.getD m m := by
    intro m
    have := getD_append_len st.parent m
    rwa [hlen] at this
  refine ⟨hpt, ?_, ?_, ?_, ?_⟩
  · simp [hlen]
  · intro m hm
    rw [hpt m]
    rcases Nat.lt_or_ge m k with h2 | h2
    · exact Nat.lt_succ_of_lt (hbound m h2)
    · have : st.parent.getD m m = m := by
        apply List.getD_eq_default
        omega
      omega
  · intro i
    obtain ⟨r, hr⟩ := hg i
    exact ⟨r, hr.congr (fun m => (hpt m).symm)⟩
  · intro pr hpr
    exact Nat.lt_succ_of_lt (hlv pr hpr)

/-- A union step with accurate finds preserves well-formedness (bound
grows by one), identifies the two roots, and preserves every existing
root equality. -/
theorem UFOk.union {st : UFState} {k B fuel idx j : Nat} (h : UFOk st k B)
    (hfuel : B ≤ fuel) (hidx : idx < k) (hj : j < k) :
    UFOk { st with parent := ufUnion st.parent fuel idx j } k (B+1) ∧
    SameRootAt (ufUnion st.parent fuel idx j) (B+1) idx j ∧
    (∀ a b, SameRootAt st.parent B a b →
      SameRootAt (ufUnion st.parent fuel idx j) (B+1) a b) := by
  obtain ⟨hlen, hbound, hg, hlv⟩ := h
  obtain ⟨ra, hra⟩ := hg idx
  obtain ⟨rb, hrb⟩ := hg j
  have hfa : ufFind st.parent fuel idx = ra := ufFind_eq_of_reachIn hra hfuel
  have hfb : ufFind st.parent fuel j = rb := ufFind_eq_of_reachIn hrb hfuel
  have hu : ufUnion st.parent fuel idx j = st.parent.set ra rb := by
    rw [ufUnion, hfa, hfb]
  have hrootA : st.parent.getD ra ra = ra := hra.rootFix
  have hrootB : st.parent.getD rb rb = rb := hrb.rootFix
  have hbk : ∀ m, m < st.parent.length → st.parent.getD m m < st.parent.length := by
    intro m hm
    rw [hlen] at hm ⊢
    exact hbound m hm
  have hraK : ra < k := by
    have := hra.root_lt hbk (by rw [hlen]; exact hidx)
    rwa [hlen] at this
  have hrbK : rb < k := by
    have := hrb.root_lt hbk (by rw [hlen]; exact hj)
    rwa [hlen] at this
  have hraLen : ra < st.parent.length := by rw [hlen]; exact hraK
  by_cases heq : ra = rb
  · -- linking a root to itself: the parent array is pointwise unchanged
    have hpt : ∀ m, st.parent.getD m m = (st.parent.set ra rb).getD m m := by
      intro m
      by_cases hm : m = ra
      · subst hm
        rw [getD_set_self _ _ _ _ hraLen, ← heq, hrootA]
      · rw [getD_set_ne _ _ _ _ _ hm]
    rw [hu]
    refine ⟨⟨by simp [hlen], ?_, ?_, hlv⟩, ?_, ?_⟩
    · intro m hm
      rw [← hpt m]
      exact hbound m hm
    · intro i
      obtain ⟨r, hr⟩ := hg i
      exact ⟨r, (hr.congr hpt).mono (Nat.le_succ _)⟩
    · exact ⟨ra, (hra.congr hpt).mono (Nat.le_succ _),
        ((heq ▸ hrb).congr hpt).mono (Nat.le_succ _)⟩
    · intro a b hab
      exact sameRootAt_mono (sameRootAt_congr hpt hab) (Nat.le_succ _)
  · rw [hu]
    refine ⟨⟨by simp [hlen], ?_, ?_, hlv⟩, ?_, ?_⟩
    · intro m hm
      by_cases hm2 : m = ra
      · subst hm2
        rw [getD_set_self _ _ _ _ hraLen]
        exact hrbK
      · rw [getD_set_ne _ _ _ _ _ hm2]
        exact hbound m hm
    · intro i
      obtain ⟨r, hr⟩ := hg i
      exact ⟨_, hr.set_root hrootA hrootB hraLen heq⟩
    · refine ⟨rb, ?_, ?_⟩
      · have := hra.set_root hrootA hrootB hraLen heq
        rwa [if_pos rfl] at this
      · have := hrb.set_root hrootA hrootB hraLen heq
        rwa [ite_self] at this
    · intro a b hab
      obtain ⟨r, hx, hy⟩ := hab
      exact ⟨_, hx.set_root hrootA hrootB hraLen heq,
        hy.set_root hrootA hrootB hraLen heq⟩

theorem lvLookup_append_some {xs : List (String × Nat)} {l : String} {j : Nat}
    (h : lvLookup xs l = some j) (ys : List (String × Nat)) :
    lvLookup (xs ++ ys) l = some j := by
  unfold lvLookup at h ⊢
  rw [List.find?_append]
  cases hf : xs.find? (fun p => p.1 = l) with
  | none => rw [hf] at h; cases h
  | some pr =>
    rw [hf] at h
    simpa [Option.or] using h

theorem lvLookup_append_none {xs : List (String × Nat)} {l : String}
    (h : lvLookup xs l = none) (y : String × Nat) :
    lvLookup (xs ++ [y]) l = if y.1 = l then some y.2 else none := by
  unfold lvLookup at h ⊢
  rw [List.find?_append]
  cases hf : xs.find? (fun p => p.1 = l) with
  | some pr => rw [hf] at h; cases h
  | none =>
    by_cases hy : y.1 = l
    · simp [Option.or, List.find?, hy]
    · simp [Option.or, List.find?, hy]

theorem lvLookup_mem {xs : List (String × Nat)} {l : String} {j : Nat}
    (h : lvLookup xs l = some j) : ∃ pr, pr ∈ xs ∧ pr.2 = j := by
  unfold lvLookup at h
  cases hf : xs.find? (fun p => p.1 = l) with
  | none => rw [hf] at h; cases h
  | some pr =>
    rw [hf] at h
    exact ⟨pr, List.mem_of_find?_eq_some hf, by simpa using h⟩

/-- Effect of the inner loop over one snippet's lvalue names: the state
stays well-formed (bound grows by at most the number of names), existing
root equalities and first-occurrence entries are preserved, and every
processed name ends up recorded with its snippet sharing a root with it. -/
theorem ufProcessLvals_spec (fuel idx k : Nat) :
    ∀ (lv : List String) (st : UFState) (B : Nat),
    UFOk st k B → idx < k → B + lv.length ≤ fuel →
    ∃ B2, B ≤ B2 ∧ B2 ≤ B + lv.length ∧
      UFOk (lv.foldl (ufProcessLval fuel idx) st) k B2 ∧
      (∀ a b, SameRootAt st.parent B a b →
        SameRootAt (lv.foldl (ufProcessLval fuel idx) st).parent B2 a b) ∧
      (∀ l j, lvLookup st.lvalue_idx l = some j →
        lvLookup (lv.foldl (ufProcessLval fuel idx) st).lvalue_idx l = some j) ∧
      (∀ l, l ∈ lv →
        ∃ j, lvLookup (lv.foldl (ufProcessLval fuel idx) st).lvalue_idx l = some j ∧
          SameRootAt (lv.foldl (ufProcessLval fuel idx) st).parent B2 idx j) := by
  intro lv
  induction lv with
  | nil =>
    intro st B hok hidx hfuel
    refine ⟨B, le_refl _, by simp, hok, ?_, ?_, ?_⟩
    · intro a b h
      exact h
    · intro l j h
      exact h
    · intro l hl
      cases hl
  | cons l0 rest ih =>
    intro st B hok hidx hfuel
    cases hlook : lvLookup st.lvalue_idx l0 with
    | none =>
      set st1 := { st with lvalue_idx := st.lvalue_idx ++ [(l0, idx)] } with hst1
      have hstep : (l0 :: rest).foldl (ufProcessLval fuel idx) st =
          rest.foldl (ufProcessLval fuel idx) st1 := by
        simp only [List.foldl_cons]
        congr 1
        simp only [ufProcessLval, hlook]
      have hok1 : UFOk st1 k B := by
        obtain ⟨h1, h2, h3, h4⟩ := hok
        refine ⟨h1, h2, h3, ?_⟩
        intro pr hpr
        rcases List.mem_append.mp hpr with h | h
        · exact h4 pr h
        · have := List.mem_singleton.mp h
          subst this
          exact hidx
      obtain ⟨B2, hB1, hB2, hok2, hpres, hlv, hfact⟩ := ih st1 B hok1 hidx
        (by simp only [List.length_cons] at hfuel; omega)
      refine ⟨B2, hB1, ?_, by rwa [hstep], ?_, ?_, ?_⟩
      · simp only [List.length_cons]
        omega
      · intro a b hab
        rw [hstep]
        exact hpres a b hab
      · intro l j hl
        rw [hstep]
        exact hlv l j (lvLookup_append_some hl _)
      · intro l hl
        rw [hstep]
        rcases List.mem_cons.mp hl with rfl | hl2
        · refine ⟨idx, ?_, ?_⟩
          · apply hlv
            have h2 := lvLookup_append_none hlook (l, idx)
            simpa using h2
          · obtain ⟨-, -, hg, -⟩ := hok2
            obtain ⟨r, hr⟩ := hg idx
            exact ⟨r, hr, hr⟩
        · exact hfact l hl2
    | some j =>
      set st1 := { st with parent := ufUnion st.parent fuel idx j } with hst1
      have hstep : (l0 :: rest).foldl (ufProcessLval fuel idx) st =
          rest.foldl (ufProcessLval fuel idx) st1 := by
        simp only [List.foldl_cons]
        congr 1
        simp only [ufProcessLval, hlook]
      have hj : j < k := by
        obtain ⟨pr, hpr, hpr2⟩ := lvLookup_mem hlook
        have := hok.2.2.2 pr hpr
        omega
      have hBfuel : B ≤ fuel := by
        simp only [List.length_cons] at hfuel
        omega
      obtain ⟨hok1, hnew, hpres1⟩ := hok.union hBfuel hidx hj
      obtain ⟨B2, hB1, hB2, hok2, hpres, hlv, hfact⟩ := ih st1 (B+1) hok1 hidx
        (by simp only [List.length_cons] at hfuel; omega)
      refine ⟨B2, by omega, ?_, by rwa [hstep], ?_, ?_, ?_⟩
      · simp only [List.length_cons]
        omega
      · intro a b hab
        rw [hstep]
        exact hpres a b (hpres1 a b hab)
      · intro l j2 hl
        rw [hstep]
        exact hlv l j2 hl
      · intro l hl
        rw [hstep]
        rcases List.mem_cons.mp hl with rfl | hl2
        · exact ⟨j, hlv _ _ hlook, hpres idx j hnew⟩
        · exact hfact l hl2

/-- Effect of the outer loop: starting from a well-formed state, the
whole remaining snippet list is processed preserving well-formedness,
root equalities and recorded first occurrences, and afterwards every
lvalue occurrence `l ∈ L[p]` shares a union-find root with the first
snippet that drove `l`. -/
theorem ufBuildAux_spec (fuel : Nat) :
    ∀ (L : List (List String)) (st : UFState) (k B : Nat),
    UFOk st k B → B + lvCount L ≤ fuel →
    ∃ B2, B ≤ B2 ∧ B2 ≤ B + lvCount L ∧
      UFOk (ufBuildAux fuel st k L) (k + L.length) B2 ∧
      (∀ a b, SameRootAt st.parent B a b →
        SameRootAt (ufBuildAux fuel st k L).parent B2 a b) ∧
      (∀ l j, lvLookup st.lvalue_idx l = some j →
        lvLookup (ufBuildAux fuel st k L).lvalue_idx l = some j) ∧
      (∀ p, p < L.length → ∀ l, l ∈ L.getD p [] →
        ∃ j, lvLookup (ufBuildAux fuel st k L).lvalue_idx l = some j ∧
          SameRootAt (ufBuildAux fuel st k L).parent B2 (k + p) j) := by
  intro L
  induction L with
  | nil =>
    intro st k B hok hfuel
    refine ⟨B, le_refl _, by simp [lvCount], by simpa using hok, ?_, ?_, ?_⟩
    · intro a b h
      exact h
    · intro l j h
      exact h
    · intro p hp
      simp at hp
  | cons lv rest ih =>
    intro st k B hok hfuel
    have hunf : ufBuildAux fuel st k (lv :: rest) =
        ufBuildAux fuel (ufProcessSnippet fuel st k lv) (k+1) rest := rfl
    obtain ⟨hpt, hokA⟩ := hok.append
    have hproc : ufProcessSnippet fuel st k lv =
        lv.foldl (ufProcessLval fuel k) { st with parent := st.parent ++ [k] } := rfl
    have hcount : lvCount (lv :: rest) = lv.length + lvCount rest := by
      simp [lvCount]
    have hfuelIn : B + lv.length ≤ fuel := by omega
    obtain ⟨B1, hB1a, hB1b, hok1, hpres1, hlv1, hfact1⟩ :=
      ufProcessLvals_spec fuel k (k+1) lv _ B hokA (Nat.lt_succ_self k) hfuelIn
    have hfuelOut : B1 + lvCount rest ≤ fuel := by omega
    obtain ⟨B2, hB2a, hB2b, hok2, hpres2, hlv2, hfact2⟩ :=
      ih (lv.foldl (ufProcessLval fuel k) { st with parent := st.parent ++ [k] })
        (k+1) B1 hok1 hfuelOut
    refine ⟨B2, by omega, by omega, ?_, ?_, ?_, ?_⟩
    · rw [hunf, hproc]
      have heq : k + 1 + rest.length = k + (lv :: rest).length := by
        simp only [List.length_cons]
        omega
      rw [← heq]
      exact hok2
    · intro a b hab
      rw [hunf, hproc]
      exact hpres2 a b (hpres1 a b (sameRootAt_congr (fun m => (hpt m).symm) hab))
    · intro l j hl
      rw [hunf, hproc]
      exact hlv2 l j (hlv1 l j hl)
    · intro p hp l hl
      rw [hunf, hproc]
      cases p with
      | zero =>
        obtain ⟨j, hj1, hj2⟩ := hfact1 l (by simpa using hl)
        refine ⟨j, hlv2 l j hj1, ?_⟩
        have := hpres2 _ _ hj2
        simpa using this
      | succ p =>
        have hp2 : p < rest.length := by
          simp only [List.length_cons] at hp
          omega
        obtain ⟨j, hj1, hj2⟩ := hfact2 p hp2 l (by simpa using hl)
        refine ⟨j, hj1, ?_⟩
        have heq : k + 1 + p = k + (p+1) := by omega
        rwa [heq] at hj2

/-- Instantiation of the loop invariant at the real starting state: after
the grouping loop, every lvalue occurrence shares a union-find root with
the snippet recorded as its first occurrence. -/
theorem ufBuild_spec (snips : List ChipySnippet) :
    ∃ B2, B2 ≤ ufFuel snips ∧
      UFOk (ufBuild snips) snips.length B2 ∧
      (∀ p, p < snips.length → ∀ l, l ∈ (snips.getD p newSnippet).lvalue_signals →
        ∃ j, lvLookup (ufBuild snips).lvalue_idx l = some j ∧
          SameRootAt (ufBuild snips).parent B2 p j) := by
  have hok0 : UFOk { parent := [], lvalue_idx := [] } 0 0 := by
    refine ⟨rfl, ?_, ?_, ?_⟩
    · intro m hm
      omega
    · intro i
      exact ⟨i, ReachIn.root 0 i (by simp [List.getD])⟩
    · intro pr hpr
      cases hpr
  have hsum : lvCount (snips.map (fun s => s.lvalue_signals)) =
      (snips.map (fun s => s.lvalue_signals.length)).sum := by
    simp [lvCount, List.map_map]
    rfl
  have hfuel : 0 + lvCount (snips.map (fun s => s.lvalue_signals)) ≤ ufFuel snips := by
    rw [hsum, ufFuel]
    omega
  obtain ⟨B2, hB2a, hB2b, hok, hpresv, hlv, hfact⟩ :=
    ufBuildAux_spec (ufFuel snips) (snips.map (fun s => s.lvalue_signals))
      { parent := [], lvalue_idx := [] } 0 0 hok0 hfuel
  have hgd : ∀ p, (snips.map (fun s => s.lvalue_signals)).getD p [] =
      (snips.getD p newSnippet).lvalue_signals := by
    intro p
    have h := List.getD_map (l := snips) (d := newSnippet) (n := p)
      (fun s => s.lvalue_signals)
    simpa [newSnippet] using h
  refine ⟨B2, by omega, ?_, ?_⟩
  · have hlen : (snips.map (fun s => s.lvalue_signals)).length = snips.length :=
      List.length_map _ _
    rw [ufBuild]
    have := hok
    rw [hlen] at this
    simpa using this
  · intro p hp l hl
    have hp2 : p < (snips.map (fun s => s.lvalue_signals)).length := by
      rw [List.length_map]
      exact hp
    obtain ⟨j, hj1, hj2⟩ := hfact p hp2 l (by rw [hgd p]; exact hl)
    refine ⟨j, hj1, ?_⟩
    simpa using hj2

/-- Core grouping fact: two snippets that drive a common lvalue name end
up with the same union-find root. -/
theorem ufRoot_eq_of_shared {snips : List ChipySnippet} {i j : Nat} {l : String}
    (hi : i < snips.length) (hj : j < snips.length)
    (hli : l ∈ (snips.getD i newSnippet).lvalue_signals)
    (hlj : l ∈ (snips.getD j newSnippet).lvalue_signals) :
    ufRoot snips i = ufRoot snips j := by
  obtain ⟨B2, hB2, hok, hfact⟩ := ufBuild_spec snips
  obtain ⟨a, hla, hsa⟩ := hfact i hi l hli
  obtain ⟨b, hlb, hsb⟩ := hfact j hj l hlj
  rw [hla] at hlb
  injection hlb with hab
  subst hab
  obtain ⟨r1, hri, hra⟩ := hsa
  obtain ⟨r2, hrj, hrb⟩ := hsb
  have hr12 : r1 = r2 := hra.unique hrb
  subst hr12
  rw [ufRoot, ufRoot, ufFind_eq_of_reachIn hri hB2, ufFind_eq_of_reachIn hrj hB2]

/-- Specification of the group-building fold: each group's member list
is exactly the (order-preserving) filter of all snippet indices with
that root, the group keys are distinct, and every index is grouped. -/
theorem buildGroups_spec (root : Nat → Nat) (n : Nat) :
    (∀ g, g ∈ buildGroups root n →
      g.2 = (List.range n).filter (fun i => decide (root i = g.1))) ∧
    ((buildGroups root n).map Prod.fst).Nodup ∧
    (∀ i, i < n → ∃ g, g ∈ buildGroups root n ∧ g.1 = root i) := by
  induction n with
  | zero =>
    refine ⟨?_, ?_, ?_⟩
    · intro g hg
      cases hg
    · simp [buildGroups]
    · intro i hi
      omega
  | succ n ih =>
    obtain ⟨hchar, hnodup, hcompl⟩ := ih
    have hstep : buildGroups root (n+1) = insertGroup (buildGroups root n) (root n) n := by
      unfold buildGroups
      rw [List.range_succ, List.foldl_append]
      rfl
    by_cases hex : (buildGroups root n).any (fun g => g.1 = root n)
    · have hins : insertGroup (buildGroups root n) (root n) n =
          (buildGroups root n).map
            (fun g => if g.1 = root n then (g.1, g.2 ++ [n]) else g) := by
        rw [insertGroup, if_pos hex]
      refine ⟨?_, ?_, ?_⟩
      · intro g hg
        rw [hstep, hins] at hg
        obtain ⟨g0, hg0, hfg⟩ := List.mem_map.mp hg
        by_cases hk : g0.1 = root n
        · rw [if_pos hk] at hfg
          subst hfg
          rw [List.range_succ, List.filter_append, ← hchar g0 hg0]
          have hd : decide (root n = g0.1) = true := by
            simp [hk]
          simp [List.filter_cons, hd]
        · rw [if_neg hk] at hfg
          subst hfg
          rw [List.range_succ, List.filter_append, ← hchar g0 hg0]
          have hd : decide (root n = g0.1) = false := by
            simp
            exact fun h => hk h.symm
          simp [List.filter_cons, hd]
      · rw [hstep, hins]
        have hkeys : ((buildGroups root n).map
            (fun g => if g.1 = root n then (g.1, g.2 ++ [n]) else g)).map Prod.fst =
            (buildGroups root n).map Prod.fst := by
          rw [List.map_map]
          apply List.map_congr_left
          intro g hg
          by_cases hk : g.1 = root n
          · simp [hk]
          · simp [hk]
        rw [hkeys]
        exact hnodup
      · intro i hi
        rcases Nat.lt_or_ge i n with h2 | h2
        · obtain ⟨g, hg, hk⟩ := hcompl i h2
          refine ⟨if g.1 = root n then (g.1, g.2 ++ [n]) else g, ?_, ?_⟩
          · rw [hstep, hins]
            exact List.mem_map.mpr ⟨g, hg, rfl⟩
          · by_cases hkk : g.1 = root n
            · simpa [hkk] using hk
            · simpa [hkk] using hk
        · have hieq : i = n := by omega
          subst hieq
          obtain ⟨g0, hg0, hk0⟩ := List.any_eq_true.mp hex
          refine ⟨(g0.1, g0.2 ++ [i]), ?_, ?_⟩
          · rw [hstep, hins]
            refine List.mem_map.mpr ⟨g0, hg0, ?_⟩
            rw [if_pos (by simpa using hk0)]
          · simpa using hk0
    · have hins : insertGroup (buildGroups root n) (root n) n =
          buildGroups root n ++ [(root n, [n])] := by
        rw [insertGroup, if_neg hex]
      have hnotk : ∀ g ∈ buildGroups root n, g.1 ≠ root n := by
        intro g hg hk
        exact hex (List.any_eq_true.mpr ⟨g, hg, by simpa using hk⟩)
      refine ⟨?_, ?_, ?_⟩
      · intro g hg
        rw [hstep, hins] at hg
        rcases List.mem_append.mp hg with hg | hg
        · rw [List.range_succ, List.filter_append, ← hchar g hg]
          have hd : decide (root n = g.1) = false := by
            simp
            exact fun h => hnotk g hg h.symm
          simp [List.filter_cons, hd]
        · have := List.mem_singleton.mp hg
          subst this
          rw [List.range_succ, List.filter_append]
          have hempty : (List.range n).filter (fun i => decide (root i = root n)) = [] := by
            rw [List.filter_eq_nil_iff]
            intro a ha hda
            have hra : root a = root n := by simpa using hda
            obtain ⟨g, hg, hk⟩ := hcompl a (List.mem_range.mp ha)
            exact hnotk g hg (hk.trans hra)
          rw [hempty]
          simp
      · rw [hstep, hins, List.map_append]
        rw [List.nodup_append]
        refine ⟨hnodup, by simp, ?_⟩
        intro a ha hb
        obtain ⟨g, hg, hgk⟩ := List.mem_map.mp ha
        simp only [List.map_cons, List.map_nil, List.mem_singleton] at hb
        exact hnotk g hg (by rw [hgk]; exact hb)
      · intro i hi
        rcases Nat.lt_or_ge i n with h2 | h2
        · obtain ⟨g, hg, hk⟩ := hcompl i h2
          exact ⟨g, by rw [hstep, hins]; exact List.mem_append_left _ hg, hk⟩
        · have hieq : i = n := by omega
          subst hieq
          refine ⟨(root i, [i]), ?_, rfl⟩
          rw [hstep, hins]
          exact List.mem_append_right _ (List.mem_singleton_self _)

/-- C1: in `write_verilog`, over `snippet_db = init_snippets ++
code_snippets`, (1) every snippet lands in some emitted group, (2) any
two snippets driving a common lvalue name land in the same group,
(3) distinct groups drive pairwise-disjoint lvalue-name sets, and
(4)/(5) each group lists exactly the snippet indices with its root, in
strictly increasing index order — i.e. in original concatenated order. -/
theorem write_verilog_snippet_grouping (snips : List ChipySnippet) :
    (∀ i, i < snips.length → ∃ g, g ∈ snippetGroups snips ∧ i ∈ g.2) ∧
    (∀ i j l, i < snips.length → j < snips.length →
      l ∈ (snips.getD i newSnippet).lvalue_signals →
      l ∈ (snips.getD j newSnippet).lvalue_signals →
      ∃ g, g ∈ snippetGroups snips ∧ i ∈ g.2 ∧ j ∈ g.2) ∧
    (∀ g g2, g ∈ snippetGroups snips → g2 ∈ snippetGroups snips → g ≠ g2 →
      ∀ i j, i ∈ g.2 → j ∈ g2.2 →
        ∀ l, l ∈ (snips.getD i newSnippet).lvalue_signals →
          l ∉ (snips.getD j newSnippet).lvalue_signals) ∧
    (∀ g, g ∈ snippetGroups snips →
      g.2 = (List.range snips.length).filter
        (fun i => decide (ufRoot snips i = g.1))) ∧
    (∀ g, g ∈ snippetGroups snips → g.2.Pairwise (· < ·)) := by
  obtain ⟨hchar, hnodup, hcompl⟩ := buildGroups_spec (ufRoot snips) snips.length
  have hmem : ∀ g, g ∈ snippetGroups snips →
      ∀ i, i ∈ g.2 ↔ (i < snips.length ∧ ufRoot snips i = g.1) := by
    intro g hg i
    rw [hchar g hg, List.mem_filter, List.mem_range]
    simp
  refine ⟨?_, ?_, ?_, ?_, ?_⟩
  · intro i hi
    obtain ⟨g, hg, hk⟩ := hcompl i hi
    exact ⟨g, hg, (hmem g hg i).mpr ⟨hi, hk.symm⟩⟩
  · intro i j l hi hj hli hlj
    have hroot : ufRoot snips i = ufRoot snips j := ufRoot_eq_of_shared hi hj hli hlj
    obtain ⟨g, hg, hk⟩ := hcompl i hi
    refine ⟨g, hg, (hmem g hg i).mpr ⟨hi, hk.symm⟩, (hmem g hg j).mpr ⟨hj, ?_⟩⟩
    rw [← hroot]
    exact hk.symm
  · intro g g2 hg hg2 hne i j hig hjg l hli hlj
    have hkne : g.1 ≠ g2.1 := by
      intro hkeq
      exact hne (List.inj_on_of_nodup_map hnodup hg hg2 hkeq)
    obtain ⟨hiN, hir⟩ := (hmem g hg i).mp hig
    obtain ⟨hjN, hjr⟩ := (hmem g2 hg2 j).mp hjg
    have hroot : ufRoot snips i = ufRoot snips j := ufRoot_eq_of_shared hiN hjN hli hlj
    apply hkne
    rw [← hir, ← hjr, hroot]
  · exact hchar
  · intro g hg
    rw [hchar g hg]
    exact List.Pairwise.sublist (List.filter_sublist _) (List.pairwise_lt_range _)

/-- Three concrete snippets: numbers 0 and 2 drive `x`, number 1 drives
`y`. -/
def demoSnips : List ChipySnippet :=
  [{ indent_str := "    ", text_lines := ["    a = 1;"], lvalue_signals := ["x"] },
   { indent_str := "    ", text_lines := ["    b = 1;"], lvalue_signals := ["y"] },
   { indent_str := "    ", text_lines := ["    c = 1;"], lvalue_signals := ["x"] }]

/-- Witness for C1: the two `x`-driving snippets share an emitted group. -/
theorem write_verilog_snippet_grouping_witness :
    ∃ g, g ∈ snippetGroups demoSnips ∧ 0 ∈ g.2 ∧ 2 ∈ g.2 :=
  (write_verilog_snippet_grouping demoSnips).2.1 0 2 "x"
    (by decide) (by decide) (by decide) (by decide)

theorem mem_insertSorted {α : Type} (key : α → String) (x s : α) (l : List α) :
    x ∈ insertSorted key s l ↔ x = s ∨ x ∈ l := by
  induction l with
  | nil => simp [insertSorted]
  | cons y ys ih =>
    by_cases h : key y < key s
    · simp only [insertSorted, if_pos h, List.mem_cons, ih]
      tauto
    · simp only [insertSorted, if_neg h, List.mem_cons]

theorem mem_sortByKey {α : Type} (key : α → String) (x : α) (l : List α) :
    x ∈ sortByKey key l ↔ x ∈ l := by
  induction l with
  | nil => simp [sortByKey]
  | cons y ys ih =>
    simp only [sortByKey, mem_insertSorted, List.mem_cons, ih]

theorem regCheck_error_of_bad (s : SignalInfo) (acc : EmitAcc)
    (hreg : s.register = true) (hbad : s.gotassign = false ∨ s.regaction = false) :
    regCheck s acc = Except.error (registerFailure s) := by
  unfold regCheck
  rw [hreg]
  rcases hbad with h | h
  · simp [h]
  · by_cases hg : s.gotassign = true
    · simp [hg, h]
    · rw [Bool.not_eq_true] at hg
      simp [hg]

theorem regCheck_ok_of_good (s : SignalInfo) (acc : EmitAcc)
    (hgood : s.register = false ∨ (s.gotassign = true ∧ s.regaction = true)) :
    ∃ acc1, regCheck s acc = Except.ok acc1 := by
  unfold regCheck
  rcases hgood with h | ⟨h1, h2⟩
  · rw [h]
    exact ⟨acc, rfl⟩
  · by_cases hr : s.register = true
    · rw [hr, h1, h2]
      by_cases hw : s.width > 1
      · simp [hw]
      · simp [hw]
    · rw [Bool.not_eq_true] at hr
      rw [hr]
      exact ⟨acc, rfl⟩

/-- The signal loop fails on (the first) offending materialized register
when the list contains one. -/
theorem emitSignals_error (l : List SignalInfo) :
    ∀ acc, (∃ s ∈ l, s.materialize = true ∧ s.register = true ∧
      (s.gotassign = false ∨ s.regaction = false)) →
    ∃ s ∈ l, s.materialize = true ∧ s.register = true ∧
      (s.gotassign = false ∨ s.regaction = false) ∧
      emitSignals acc l = Except.error (registerFailure s) := by
  induction l with
  | nil =>
    intro acc h
    obtain ⟨s, hs, -⟩ := h
    cases hs
  | cons hd rest ih =>
    intro acc h
    by_cases hmat : hd.materialize = true
    · by_cases hbad : hd.register = true ∧ (hd.gotassign = false ∨ hd.regaction = false)
      · refine ⟨hd, List.mem_cons_self _ _, hmat, hbad.1, hbad.2, ?_⟩
        have hrc := regCheck_error_of_bad hd (sigDeclAcc hd acc) hbad.1 hbad.2
        simp [emitSignals, hmat, hrc]
      · have hgood : hd.register = false ∨ (hd.gotassign = true ∧ hd.regaction = true) := by
          by_cases hr : hd.register = true
          · right
            constructor
            · by_cases hga : hd.gotassign = true
              · exact hga
              · exact absurd ⟨hr, Or.inl (by rwa [Bool.not_eq_true] at hga)⟩ hbad
            · by_cases hra : hd.regaction = true
              · exact hra
              · exact absurd ⟨hr, Or.inr (by rwa [Bool.not_eq_true] at hra)⟩ hbad
          · left
            rwa [Bool.not_eq_true] at hr
        obtain ⟨acc1, hok⟩ := regCheck_ok_of_good hd (sigDeclAcc hd acc) hgood
        have hrest : ∃ s ∈ rest, s.materialize = true ∧ s.register = true ∧
            (s.gotassign = false ∨ s.regaction = false) := by
          obtain ⟨s, hs, h1, h2, h3⟩ := h
          rcases List.mem_cons.mp hs with rfl | hs2
          · exact absurd ⟨h2, h3⟩ hbad
          · exact ⟨s, hs2, h1, h2, h3⟩
        obtain ⟨s, hs, h1, h2, h3, herr⟩ := ih acc1 hrest
        refine ⟨s, List.mem_cons_of_mem _ hs, h1, h2, h3, ?_⟩
        simp only [emitSignals, hmat, Bool.not_true]
        rw [hok]
        exact herr
    · have hrest : ∃ s ∈ rest, s.materialize = true ∧ s.register = true ∧
          (s.gotassign = false ∨ s.regaction = false) := by
        obtain ⟨s, hs, h1, h2, h3⟩ := h
        rcases List.mem_cons.mp hs with rfl | hs2
        · exact absurd h1 hmat
        · exact ⟨s, hs2, h1, h2, h3⟩
      obtain ⟨s, hs, h1, h2, h3, herr⟩ := ih acc hrest
      refine ⟨s, List.mem_cons_of_mem _ hs, h1, h2, h3, ?_⟩
      rw [Bool.not_eq_true] at hmat
      simp only [emitSignals, hmat, Bool.not_false]
      exact herr

/-- C2: if at emission time some materialized signal is a register
missing `gotassign` or `regaction`, then `write_verilog` fails with a
`ChipyError` naming an offending register `<module>.<name>`, and no
output (in particular no completed module body) is produced.  (Signals
created by `AddReg`/`AddOutput` — the only ways to obtain
`register=true` — are always materialized, so the materialize condition
is satisfied by every register a program can build.) -/
theorem write_verilog_register_check (m : ChipyModule)
    (hbad : ∃ s ∈ m.signals, s.materialize = true ∧ s.register = true ∧
      (s.gotassign = false ∨ s.regaction = false)) :
    (∃ s ∈ m.signals, s.materialize = true ∧ s.register = true ∧
      (s.gotassign = false ∨ s.regaction = false) ∧
      m.write_verilog = Except.error (registerFailure s) ∧
      ∀ mn, s.module = some mn →
        registerFailure s = PyErr.chipyError
          ((if s.gotassign = false then "Register without assignment: "
            else "Register without synchronization element: ") ++ mn ++ "." ++ s.name)) ∧
    ∀ out, m.write_verilog ≠ Except.ok out := by
  have hbadSorted : ∃ s ∈ sortByKey (fun s => s.name) m.signals,
      s.materialize = true ∧ s.register = true ∧
      (s.gotassign = false ∨ s.regaction = false) := by
    obtain ⟨s, hs, hrest⟩ := hbad
    exact ⟨s, (mem_sortByKey _ s _).mpr hs, hrest⟩
  obtain ⟨s, hs, h1, h2, h3, herr⟩ := emitSignals_error _
    { portlist := [],
      wirelist := (sortByKey (fun mem => mem.name) m.memories).map memoryWireLine,
      assignlist := [] } hbadSorted
  have hwv : m.write_verilog = Except.error (registerFailure s) := by
    rw [ChipyModule.write_verilog]
    rw [herr]
  refine ⟨⟨s, (mem_sortByKey _ s _).mp hs, h1, h2, h3, hwv, ?_⟩, ?_⟩
  · intro mn hmn
    rw [registerFailure, hmn]
    by_cases hg : s.gotassign = false
    · rw [if_pos hg, if_pos hg]
    · rw [if_neg hg, if_neg hg]
  · intro out hout
    rw [hwv] at hout
    cases hout

/-- A register lacking both assignment and synchronization, materialized,
inside module `m`: concrete offender for the C2 witness. -/
def badRegModule : ChipyModule :=
  { emptyModule "m" "t.py:0" with
      signals := [{ sampleSlaveSignal with materialize := true }] }

/-- Witness for C2 at the concrete one-register module: emission fails
with the exact `Register without assignment` message and never returns
output. -/
theorem write_verilog_register_check_witness :
    badRegModule.write_verilog = Except.error
      (PyErr.chipyError "Register without assignment: m.s") := by
  obtain ⟨⟨s, hs, h1, h2, h3, herr, hmsg⟩, -⟩ := write_verilog_register_check badRegModule
    ⟨{ sampleSlaveSignal with materialize := true }, List.mem_cons_self _ _, rfl, rfl,
      Or.inl rfl⟩
  have hseq : s = { sampleSlaveSignal with materialize := true } := by
    have : s ∈ [{ sampleSlaveSignal with materialize := true }] := hs
    simpa using this
  rw [hseq] at herr
  rw [herr]
  rfl

theorem find?_update_by_key {α : Type} (key : α → String) (n n2 : String)
    (f : α → α) (hf : ∀ x, key (f x) = key x) (l : List α) :
    (l.map (fun x => if key x = n then f x else x)).find? (fun x => key x = n2) =
      if n2 = n then (l.find? (fun x => key x = n2)).map f
      else l.find? (fun x => key x = n2) := by
  induction l with
  | nil => by_cases h : n2 = n <;> simp [h]
  | cons x xs ih =>
    simp only [List.map_cons]
    by_cases hx : key x = n
    · rw [if_pos hx]
      by_cases h2 : key x = n2
      · have hnn : n2 = n := h2.symm.trans hx
        rw [List.find?_cons_of_pos _ (by simp [hf x, h2]), if_pos hnn,
            List.find?_cons_of_pos _ (by simp [h2])]
        rfl
      · rw [List.find?_cons_of_neg _ (by simp [hf x, h2]), ih]
        by_cases hnn : n2 = n
        · rw [if_pos hnn, if_pos hnn, List.find?_cons_of_neg _ (by simp [h2])]
        · rw [if_neg hnn, if_neg hnn, List.find?_cons_of_neg _ (by simp [h2])]
    · rw [if_neg hx]
      by_cases h2 : key x = n2
      · have hnn : ¬(n2 = n) := fun hh => hx (h2.trans hh)
        rw [List.find?_cons_of_pos _ (by simp [h2]), if_neg hnn,
            List.find?_cons_of_pos _ (by simp [h2])]
      · rw [List.find?_cons_of_neg _ (by simp [h2]), ih]
        by_cases hnn : n2 = n
        · rw [if_pos hnn, if_pos hnn, List.find?_cons_of_neg _ (by simp [h2])]
        · rw [if_neg hnn, if_neg hnn, List.find?_cons_of_neg _ (by simp [h2])]

theorem findSignal_update (m : ChipyModule) (n n2 : String)
    (f : SignalInfo → SignalInfo) (hf : ∀ s, (f s).name = s.name) :
    (m.updateSignal n f).findSignal n2 =
      if n2 = n then (m.findSignal n2).map f else m.findSignal n2 := by
  simp only [ChipyModule.updateSignal, ChipyModule.findSignal]
  exact find?_update_by_key (fun s => s.name) n n2 f hf m.signals

theorem findModule_update (st : DesignState) (mn mn2 : String)
    (f : ChipyModule → ChipyModule) (hf : ∀ m, (f m).name = m.name) :
    (st.updateModule mn f).findModule mn2 =
      if mn2 = mn then (st.findModule mn2).map f else st.findModule mn2 := by
  simp only [DesignState.updateModule, DesignState.findModule]
  exact find?_update_by_key (fun m => m.name) mn mn2 f hf st.modules

theorem setMatFlag_fields (st : DesignState) (md : Option String) (n : String) :
    (st.setMatFlag md n).ctxStack = st.ctxStack ∧
    (st.setMatFlag md n).elseCtx = st.elseCtx ∧
    (st.setMatFlag md n).counter = st.counter := by
  cases md with
  | none => exact ⟨rfl, rfl, rfl⟩
  | some mn => exact ⟨rfl, rfl, rfl⟩

mutual
theorem setMaterialize_fields : ∀ (st : DesignState) (s : SigExpr),
    (setMaterialize st s).ctxStack = st.ctxStack ∧
    (setMaterialize st s).elseCtx = st.elseCtx ∧
    (setMaterialize st s).counter = st.counter
  | st, .mk n md lv rv mem deps => by
    rw [setMaterialize]
    by_cases h : st.readMat md n
    · rw [if_pos h]
      exact ⟨rfl, rfl, rfl⟩
    · rw [if_neg h]
      obtain ⟨h1, h2, h3⟩ := setMaterializeList_fields (st.setMatFlag md n) deps
      obtain ⟨g1, g2, g3⟩ := setMatFlag_fields st md n
      exact ⟨h1.trans g1, h2.trans g2, h3.trans g3⟩

theorem setMaterializeList_fields : ∀ (st : DesignState) (dl : SigDeps),
    (setMaterializeList st dl).ctxStack = st.ctxStack ∧
    (setMaterializeList st dl).elseCtx = st.elseCtx ∧
    (setMaterializeList st dl).counter = st.counter
  | st, .nil => ⟨rfl, rfl, rfl⟩
  | st, .cons h t => by
    rw [setMaterializeList]
    obtain ⟨h1, h2, h3⟩ := setMaterializeList_fields (setMaterialize st h) t
    obtain ⟨g1, g2, g3⟩ := setMaterialize_fields st h
    exact ⟨h1.trans g1, h2.trans g2, h3.trans g3⟩
end

/-- C3 (code bug): `ElseIf` sets the pending-else slot to `None`
(Chipy.py line 1159) before reading it at line 1161, so for every design
state — in particular every state in which a just-closed `If` block has
set the pending-else slot — `ElseIf` raises `AttributeError`; it never
consumes the pending context, emits no `else if` line and attaches
nothing to the preceding snippet. -/
theorem elseIf_always_crashes (st : DesignState) (cond : SigExpr) (loc : String) :
    ElseIf st cond loc =
      (setMaterialize { st with elseCtx := none } cond, some PyErr.attributeError) ∧
    (ElseIf st cond loc).2 = some PyErr.attributeError := by
  have hec : (setMaterialize { st with elseCtx := none } cond).elseCtx = none :=
    (setMaterialize_fields { st with elseCtx := none } cond).2.1
  have h : ElseIf st cond loc =
      (setMaterialize { st with elseCtx := none } cond, some PyErr.attributeError) := by
    simp only [ElseIf]
    rw [hec]
  exact ⟨h, by rw [h]⟩

theorem updateModule_findModule_self (st : DesignState) (mn : String)
    (f : ChipyModule → ChipyModule) (hf : ∀ m, (f m).name = m.name) :
    (st.updateModule mn f).findModule mn = (st.findModule mn).map f := by
  rw [findModule_update st mn mn f hf, if_pos rfl]

theorem updateModule_findModule_ne (st : DesignState) (mn mn2 : String)
    (f : ChipyModule → ChipyModule) (hf : ∀ m, (f m).name = m.name)
    (h : mn2 ≠ mn) :
    (st.updateModule mn f).findModule mn2 = st.findModule mn2 := by
  rw [findModule_update st mn mn2 f hf, if_neg h]

theorem pushPlainCtx_cons {st : DesignState} {c : CtxFrame} {cs : List CtxFrame}
    (h : st.ctxStack = c :: cs) :
    pushPlainCtx st = .ok { st with ctxStack :=
      { module := c.module, snippet := c.snippet } :: c :: cs } := by
  unfold pushPlainCtx
  rw [h]

theorem ctxAddLine_fresh {st : DesignState} {c : CtxFrame} {cs : List CtxFrame}
    {mn : String} {m : ChipyModule} (line : String) (lvals : List String)
    (hstack : st.ctxStack = c :: cs) (hcm : c.module = some mn)
    (hsnip : c.snippet = none) (hfm : st.findModule mn = some m) :
    ctxAddLine st line lvals = .ok (setHeadSnippet
      (st.updateModule mn (fun m2 =>
        { m2 with code_snippets := m2.code_snippets ++
          [snippetAddLine newSnippet line lvals] }))
      m.code_snippets.length) := by
  unfold ctxAddLine
  rw [hstack]
  dsimp only
  rw [hcm]
  dsimp only
  rw [hfm]
  dsimp only
  rw [hsnip]

theorem ctxAddLine_shared {st : DesignState} {c : CtxFrame} {cs : List CtxFrame}
    {mn : String} {m : ChipyModule} {i : Nat} (line : String) (lvals : List String)
    (hstack : st.ctxStack = c :: cs) (hcm : c.module = some mn)
    (hsnip : c.snippet = some i) (hfm : st.findModule mn = some m) :
    ctxAddLine st line lvals = .ok (st.updateModule mn (fun m2 =>
      { m2 with code_snippets :=
          updateNth m2.code_snippets i (fun sn => snippetAddLine sn line lvals) })) := by
  unfold ctxAddLine
  rw [hstack]
  dsimp only
  rw [hcm]
  dsimp only
  rw [hfm]
  dsimp only
  rw [hsnip]

/-- Evaluation of `Assign` on a memory-access lvalue down to the context
manipulation: counter bump, write-enable registration into the memory's
module, init-snippet append, then the `with ChipyContext()` block and
the guarded-write append. -/
theorem assign_memory_run (st st1 st4 : DesignState) (lhs rhs : SigExpr)
    (loc memName mn : String) (m1 : ChipyModule)
    (hst1 : setMaterialize st rhs = st1)
    (hmem : lhs.memoryName = some memName)
    (hmod : lhs.module = some mn)
    (hm1 : st1.findModule mn = some m1)
    (hfresh : m1.findSignal ("__" ++ toString (st1.counter + 1)) = none)
    (hst4 : (({ st1 with counter := st1.counter + 1 }).updateModule mn
        (fun m => m.addSignal
          { newSignal (some mn) ("__" ++ toString (st1.counter + 1)) loc with
              vlog_reg := true, gotassign := true, materialize := true })).updateModule mn
        (fun m => { m with init_snippets := m.init_snippets ++
          [({ indent_str := "    "
              text_lines := ["    " ++ ("__" ++ toString (st1.counter + 1)) ++
                " = 1'b0; // " ++ loc]
              lvalue_signals := ["__" ++ toString (st1.counter + 1)] } : ChipySnippet)] }) = st4) :
    Assign st lhs rhs loc =
      match pushPlainCtx st4 with
      | .error e => (st4, some e)
      | .ok st5 =>
        match ctxAddLine st5 (("__" ++ toString (st1.counter + 1)) ++ " = 1'b1; // " ++ loc)
            ["__" ++ toString (st1.counter + 1)] with
        | .error e => (popCtx st5, some e)
        | .ok st6 =>
          ((popCtx st6).updateModule mn (fun m =>
            { m with memories := m.memories.map (fun mem =>
                if mem.name = memName then
                  { mem with regactions := mem.regactions ++
                    ["if (" ++ ("__" ++ toString (st1.counter + 1)) ++ ") " ++
                      optStr lhs.vlogRvalue ++ " <= " ++ rhs.name ++ "; // " ++ loc] }
                else mem) }), none) := by
  have hm1' : DesignState.findModule { st1 with counter := st1.counter + 1 } mn = some m1 := hm1
  have hfresh' : (m1.findSignal ("__" ++ toString (st1.counter + 1))).isSome = false := by
    rw [hfresh]
    rfl
  subst hst4
  unfold Assign
  rw [hmem, hmod, hst1]
  dsimp only
  rw [hm1']
  dsimp only
  rw [hfresh']
  simp only [Bool.false_eq_true, if_false]

theorem findModule_mapped_some {st : DesignState} {mn : String} {m : ChipyModule}
    {f : ChipyModule → ChipyModule} (h : st.findModule mn = some m)
    (hf : ∀ x, (f x).name = x.name) :
    (st.updateModule mn f).findModule mn = some (f m) := by
  rw [findModule_update st mn mn f hf, if_pos rfl, h]
  rfl

theorem findModule_mapped_ne {st : DesignState} {mn mn2 : String}
    {f : ChipyModule → ChipyModule} (hf : ∀ x, (f x).name = x.name)
    (hne : mn2 ≠ mn) :
    (st.updateModule mn f).findModule mn2 = st.findModule mn2 := by
  rw [findModule_update st mn mn2 f hf, if_neg hne]

theorem findModule_popCtx (st : DesignState) (mn : String) :
    (popCtx st).findModule mn = st.findModule mn := rfl

theorem findModule_setHeadSnippet (st : DesignState) (i : Nat) (mn : String) :
    (setHeadSnippet st i).findModule mn = st.findModule mn := by
  unfold setHeadSnippet
  split
  · rfl
  · rfl

/-- C8: `Assign` on a memory-access lvalue (Chipy.py lines 1082-1099),
run while the memory's module is the current context: it succeeds, bumps
the auto-name counter, and in the memory's module it (a) registers the
fresh write-enable signal `__<counter>` (a materialized, assigned
verilog reg), (b) appends an init snippet setting it to `1'b0` with the
write-enable as the snippet's only driven signal, (c) appends the
guarded write `if (<wen>) <mem access> <= <rhs>;` to the matching
memory's regaction list, and (d) extends `code_snippets` with the
`<wen> = 1'b1;` line through a one-line context (a fresh snippet when
the surrounding context has none, else the shared snippet); the module's
own regaction list and instance list are untouched, and the context
stack is restored. -/
theorem assign_memory_effects (st st1 : DesignState) (lhs rhs : SigExpr)
    (loc memName mn : String) (m1 : ChipyModule) (c : CtxFrame) (cs : List CtxFrame)
    (hst1 : setMaterialize st rhs = st1)
    (hmem : lhs.memoryName = some memName)
    (hmod : lhs.module = some mn)
    (hm1 : st1.findModule mn = some m1)
    (hfresh : m1.findSignal ("__" ++ toString (st1.counter + 1)) = none)
    (hctx : st1.ctxStack = c :: cs)
    (hcm : c.module = some mn) :
    ∃ stF mF,
      Assign st lhs rhs loc = (stF, none) ∧
      stF.ctxStack = st1.ctxStack ∧
      stF.counter = st1.counter + 1 ∧
      stF.findModule mn = some mF ∧
      mF.signals = m1.signals ++
        [{ newSignal (some mn) ("__" ++ toString (st1.counter + 1)) loc with
            vlog_reg := true, gotassign := true, materialize := true }] ∧
      mF.init_snippets = m1.init_snippets ++
        [({ indent_str := "    "
            text_lines := ["    " ++ ("__" ++ toString (st1.counter + 1)) ++
              " = 1'b0; // " ++ loc]
            lvalue_signals := ["__" ++ toString (st1.counter + 1)] } : ChipySnippet)] ∧
      mF.memories = m1.memories.map (fun mem =>
        if mem.name = memName then
          { mem with regactions := mem.regactions ++
            ["if (" ++ ("__" ++ toString (st1.counter + 1)) ++ ") " ++
              optStr lhs.vlogRvalue ++ " <= " ++ rhs.name ++ "; // " ++ loc] }
        else mem) ∧
      mF.regactions = m1.regactions ∧
      mF.instances = m1.instances ∧
      (match c.snippet with
       | none => mF.code_snippets = m1.code_snippets ++
           [snippetAddLine newSnippet
             (("__" ++ toString (st1.counter + 1)) ++ " = 1'b1; // " ++ loc)
             ["__" ++ toString (st1.counter + 1)]]
       | some i => mF.code_snippets =
           updateNth m1.code_snippets i (fun sn => snippetAddLine sn
             (("__" ++ toString (st1.counter + 1)) ++ " = 1'b1; // " ++ loc)
             ["__" ++ toString (st1.counter + 1)])) := by
  set ST4 := (({ st1 with counter := st1.counter + 1 }).updateModule mn
      (fun m => m.addSignal
        { newSignal (some mn) ("__" ++ toString (st1.counter + 1)) loc with
            vlog_reg := true, gotassign := true, materialize := true })).updateModule mn
      (fun m => { m with init_snippets := m.init_snippets ++
        [({ indent_str := "    "
            text_lines := ["    " ++ ("__" ++ toString (st1.counter + 1)) ++
              " = 1'b0; // " ++ loc]
            lvalue_signals := ["__" ++ toString (st1.counter + 1)] } : ChipySnippet)] })
    with hST4
  have hrun := assign_memory_run st st1 ST4 lhs rhs loc memName mn m1
    hst1 hmem hmod hm1 hfresh hST4.symm
  have hctx4 : ST4.ctxStack = c :: cs := by
    rw [hST4]
    exact hctx
  rw [pushPlainCtx_cons hctx4] at hrun
  dsimp only at hrun
  set ST5 := { ST4 with ctxStack :=
      { module := c.module, snippet := c.snippet } :: c :: cs } with hST5
  have hstack5 : ST5.ctxStack =
      { module := c.module, snippet := c.snippet } :: c :: cs := by
    rw [hST5]
  have hcm5 : ({ module := c.module, snippet := c.snippet } : CtxFrame).module = some mn := hcm
  have hfm5 : ST5.findModule mn = some
      { m1.addSignal
          { newSignal (some mn) ("__" ++ toString (st1.counter + 1)) loc with
              vlog_reg := true, gotassign := true, materialize := true } with
        init_snippets := (m1.addSignal
          { newSignal (some mn) ("__" ++ toString (st1.counter + 1)) loc with
              vlog_reg := true, gotassign := true, materialize := true }).init_snippets ++
          [({ indent_str := "    "
              text_lines := ["    " ++ ("__" ++ toString (st1.counter + 1)) ++
                " = 1'b0; // " ++ loc]
              lvalue_signals := ["__" ++ toString (st1.counter + 1)] } : ChipySnippet)] } := by
    have h0 : ST5.findModule mn = ST4.findModule mn := by
      rw [hST5]
      rfl
    rw [h0, hST4]
    refine findModule_mapped_some ?_ ?_
    · refine findModule_mapped_some ?_ ?_
      · exact hm1
      · exact fun x => rfl
    · exact fun x => rfl
  cases hcs : c.snippet with
  | none =>
    have hsnip5 : ({ module := c.module, snippet := c.snippet } : CtxFrame).snippet = none := hcs
    rw [ctxAddLine_fresh _ _ hstack5 hcm5 hsnip5 hfm5] at hrun
    dsimp only at hrun
    refine ⟨_, _, hrun, ?_, ?_,
      findModule_mapped_some (Eq.trans (findModule_popCtx _ _)
        (Eq.trans (findModule_setHeadSnippet _ _ _)
          (findModule_mapped_some hfm5 ?_))) ?_, ?_, ?_, ?_, ?_, ?_, ?_⟩
    · rw [hctx, hST5]
      rfl
    · rw [hST5, hST4]
      rfl
    · exact fun x => rfl
    · exact fun x => rfl
    · exact rfl
    · exact rfl
    · exact rfl
    · exact rfl
    · exact rfl
    · exact rfl
  | some i =>
    have hsnip5 : ({ module := c.module, snippet := c.snippet } : CtxFrame).snippet = some i := hcs
    rw [ctxAddLine_shared _ _ hstack5 hcm5 hsnip5 hfm5] at hrun
    dsimp only at hrun
    refine ⟨_, _, hrun, ?_, ?_,
      findModule_mapped_some (Eq.trans (findModule_popCtx _ _)
        (findModule_mapped_some hfm5 ?_)) ?_, ?_, ?_, ?_, ?_, ?_, ?_⟩
    · rw [hctx, hST5]
      rfl
    · rw [hST5, hST4]
      rfl
    · exact fun x => rfl
    · exact fun x => rfl
    · exact rfl
    · exact rfl
    · exact rfl
    · exact rfl
    · exact rfl
    · exact rfl

def memW : ChipyMemory :=
  { name := "mem", width := 8, depth := 16, signed := false,
    posedge := some "clk", negedge := none, regactions := [], codeloc := "w" }

def rdataW : SignalInfo := { newSignal (some "top") "rdata" "w" with materialize := true }

def mW : ChipyModule :=
  { name := "top", signals := [rdataW], memories := [memW], regactions := [],
    instances := [], init_snippets := [], code_snippets := [], codeloc := "w" }

def stW : DesignState :=
  { modules := [mW], ctxStack := [{ module := some "top", snippet := none }],
    elseCtx := none, counter := 0, constMat := [] }

def lhsW : SigExpr := .mk "mem_w" (some "top") none (some "mem[waddr]") (some "mem") .nil

def rhsW : SigExpr := .mk "rdata" (some "top") none none none .nil

theorem assign_memory_effects_witness :
    ∃ stF mF,
      Assign stW lhsW rhsW "w" = (stF, none) ∧
      stF.ctxStack = stW.ctxStack ∧
      stF.counter = stW.counter + 1 ∧
      stF.findModule "top" = some mF ∧
      mF.signals = mW.signals ++
        [{ newSignal (some "top") ("__" ++ toString (stW.counter + 1)) "w" with
            vlog_reg := true, gotassign := true, materialize := true }] ∧
      mF.init_snippets = mW.init_snippets ++
        [({ indent_str := "    "
            text_lines := ["    " ++ ("__" ++ toString (stW.counter + 1)) ++
              " = 1'b0; // " ++ "w"]
            lvalue_signals := ["__" ++ toString (stW.counter + 1)] } : ChipySnippet)] ∧
      mF.memories = mW.memories.map (fun mem =>
        if mem.name = "mem" then
          { mem with regactions := mem.regactions ++
            ["if (" ++ ("__" ++ toString (stW.counter + 1)) ++ ") " ++
              optStr lhsW.vlogRvalue ++ " <= " ++ rhsW.name ++ "; // " ++ "w"] }
        else mem) ∧
      mF.regactions = mW.regactions ∧
      mF.instances = mW.instances ∧
      (match ({ module := some "top", snippet := none } : CtxFrame).snippet with
       | none => mF.code_snippets = mW.code_snippets ++
           [snippetAddLine newSnippet
             (("__" ++ toString (stW.counter + 1)) ++ " = 1'b1; // " ++ "w")
             ["__" ++ toString (stW.counter + 1)]]
       | some i => mF.code_snippets =
           updateNth mW.code_snippets i (fun sn => snippetAddLine sn
             (("__" ++ toString (stW.counter + 1)) ++ " = 1'b1; // " ++ "w")
             ["__" ++ toString (stW.counter + 1)])) :=
  assign_memory_effects stW stW lhsW rhsW "w" "mem" "top" mW
    { module := some "top", snippet := none } [] rfl rfl rfl rfl rfl rfl rfl

/-- Whether `(module, name)` denotes a signal the flag store can record:
constants (module `None`) always can (`constMat`), module signals need
the module and the signal to exist in the registry. -/
def DesignState.resolvable (st : DesignState) (module : Option String) (name : String) : Bool :=
  match module with
  | none => true
  | some mn =>
    match st.findModule mn with
    | none => false
    | some m => (m.findSignal name).isSome

theorem readMat_setMatFlag_other (st : DesignState) (md2 : Option String) (n2 : String)
    (md : Option String) (n : String) (h : ¬(md = md2 ∧ n = n2)) :
    (st.setMatFlag md2 n2).readMat md n = st.readMat md n := by
  cases md2 with
  | none =>
    cases md with
    | none =>
      have hne : n ≠ n2 := fun hn => h ⟨rfl, hn⟩
      simp only [DesignState.setMatFlag, DesignState.readMat]
      simp [List.contains, hne]
    | some mn => rfl
  | some mn2 =>
    cases md with
    | none => rfl
    | some mn =>
      simp only [DesignState.setMatFlag, DesignState.readMat]
      rw [findModule_update st mn2 mn
        (fun m => m.updateSignal n2 (fun s => { s with materialize := true }))
        (fun m => rfl)]
      by_cases hmn : mn = mn2
      · rw [if_pos hmn]
        cases hm : st.findModule mn with
        | none => rfl
        | some m =>
          have hne : ¬(n = n2) := fun hn => h ⟨by rw [hmn], hn⟩
          dsimp only [Option.map]
          rw [findSignal_update m n2 n
            (fun s => { s with materialize := true }) (fun s => rfl), if_neg hne]
      · rw [if_neg hmn]

theorem readMat_setMatFlag_self (st : DesignState) (md : Option String) (n : String)
    (hres : st.resolvable md n = true) :
    (st.setMatFlag md n).readMat md n = true := by
  cases md with
  | none =>
    simp only [DesignState.setMatFlag, DesignState.readMat]
    simp [List.contains]
  | some mn =>
    simp only [DesignState.resolvable] at hres
    simp only [DesignState.setMatFlag, DesignState.readMat]
    rw [findModule_update st mn mn
      (fun m => m.updateSignal n (fun s => { s with materialize := true }))
      (fun m => rfl), if_pos rfl]
    cases hm : st.findModule mn with
    | none =>
      rw [hm] at hres
      exact absurd hres (by simp)
    | some m =>
      rw [hm] at hres
      dsimp only at hres
      dsimp only [Option.map]
      rw [findSignal_update m n n
        (fun s => { s with materialize := true }) (fun s => rfl), if_pos rfl]
      cases hs : m.findSignal n with
      | none =>
        rw [hs] at hres
        exact absurd hres (by simp)
      | some s => rfl

theorem readMat_true_resolvable (st : DesignState) (md : Option String) (n : String)
    (h : st.readMat md n = true) : st.resolvable md n = true := by
  cases md with
  | none => rfl
  | some mn =>
    simp only [DesignState.readMat] at h
    simp only [DesignState.resolvable]
    cases hm : st.findModule mn with
    | none =>
      rw [hm] at h
      exact absurd h (by simp)
    | some m =>
      rw [hm] at h
      dsimp only at h
      cases hs : m.findSignal n with
      | none =>
        rw [hs] at h
        exact absurd h (by simp)
      | some s => simp [hs]

theorem readMat_setMatFlag_mono (st : DesignState) (md2 : Option String) (n2 : String)
    (md : Option String) (n : String) (h : st.readMat md n = true) :
    (st.setMatFlag md2 n2).readMat md n = true := by
  by_cases hp : md = md2 ∧ n = n2
  · obtain ⟨h1, h2⟩ := hp
    subst h1
    subst h2
    exact readMat_setMatFlag_self st md n (readMat_true_resolvable st md n h)
  · rw [readMat_setMatFlag_other st md2 n2 md n hp]
    exact h

theorem resolvable_setMatFlag (st : DesignState) (md2 : Option String) (n2 : String)
    (md : Option String) (n : String) :
    (st.setMatFlag md2 n2).resolvable md n = st.resolvable md n := by
  cases md2 with
  | none =>
    cases md with
    | none => rfl
    | some mn => rfl
  | some mn2 =>
    cases md with
    | none => rfl
    | some mn =>
      simp only [DesignState.setMatFlag, DesignState.resolvable]
      rw [findModule_update st mn2 mn
        (fun m => m.updateSignal n2 (fun s => { s with materialize := true }))
        (fun m => rfl)]
      by_cases hmn : mn = mn2
      · rw [if_pos hmn]
        cases hm : st.findModule mn with
        | none => rfl
        | some m =>
          dsimp only [Option.map]
          rw [findSignal_update m n2 n
            (fun s => { s with materialize := true }) (fun s => rfl)]
          by_cases hn : n = n2
          · rw [if_pos hn]
            cases hs : m.findSignal n with
            | none => rfl
            | some s => rfl
          · rw [if_neg hn]
      · rw [if_neg hmn]

mutual
theorem readMat_setMaterialize_mono : ∀ (s : SigExpr) (st : DesignState)
    (md : Option String) (n : String), st.readMat md n = true →
    (setMaterialize st s).readMat md n = true
  | .mk n2 md2 lv rv mem deps, st, md, n => by
    intro h
    rw [setMaterialize]
    by_cases hc : st.readMat md2 n2 = true
    · rw [if_pos hc]
      exact h
    · rw [if_neg hc]
      exact readMat_setMaterializeList_mono deps (st.setMatFlag md2 n2) md n
        (readMat_setMatFlag_mono st md2 n2 md n h)

theorem readMat_setMaterializeList_mono : ∀ (dl : SigDeps) (st : DesignState)
    (md : Option String) (n : String), st.readMat md n = true →
    (setMaterializeList st dl).readMat md n = true
  | .nil, st, md, n => by
    intro h
    rw [setMaterializeList]
    exact h
  | .cons hd tl, st, md, n => by
    intro h
    rw [setMaterializeList]
    exact readMat_setMaterializeList_mono tl (setMaterialize st hd) md n
      (readMat_setMaterialize_mono hd st md n h)
end

mutual
theorem resolvable_setMaterialize : ∀ (s : SigExpr) (st : DesignState)
    (md : Option String) (n : String),
    (setMaterialize st s).resolvable md n = st.resolvable md n
  | .mk n2 md2 lv rv mem deps, st, md, n => by
    rw [setMaterialize]
    by_cases hc : st.readMat md2 n2 = true
    · rw [if_pos hc]
    · rw [if_neg hc]
      rw [resolvable_setMaterializeList deps (st.setMatFlag md2 n2) md n]
      exact resolvable_setMatFlag st md2 n2 md n

theorem resolvable_setMaterializeList : ∀ (dl : SigDeps) (st : DesignState)
    (md : Option String) (n : String),
    (setMaterializeList st dl).resolvable md n = st.resolvable md n
  | .nil, st, md, n => by
    rw [setMaterializeList]
  | .cons hd tl, st, md, n => by
    rw [setMaterializeList]
    rw [resolvable_setMaterializeList tl (setMaterialize st hd) md n]
    exact resolvable_setMaterialize hd st md n
end

mutual
theorem readMat_setMaterialize_new : ∀ (s : SigExpr) (st : DesignState)
    (md : Option String) (n : String),
    (setMaterialize st s).readMat md n = true →
    st.readMat md n = true ∨ ∃ t ∈ s.nodes, t.module = md ∧ t.name = n
  | .mk n2 md2 lv rv mem deps, st, md, n => by
    intro h
    rw [setMaterialize] at h
    by_cases hc : st.readMat md2 n2 = true
    · rw [if_pos hc] at h
      exact Or.inl h
    · rw [if_neg hc] at h
      rcases readMat_setMaterializeList_new deps (st.setMatFlag md2 n2) md n h with
        h2 | ⟨t, ht, hmd, hn⟩
      · by_cases hp : md = md2 ∧ n = n2
        · right
          refine ⟨.mk n2 md2 lv rv mem deps, ?_, hp.1.symm, hp.2.symm⟩
          rw [SigExpr.nodes]
          exact List.mem_cons_self _ _
        · rw [readMat_setMatFlag_other st md2 n2 md n hp] at h2
          exact Or.inl h2
      · right
        refine ⟨t, ?_, hmd, hn⟩
        rw [SigExpr.nodes]
        exact List.mem_cons_of_mem _ ht

theorem readMat_setMaterializeList_new : ∀ (dl : SigDeps) (st : DesignState)
    (md : Option String) (n : String),
    (setMaterializeList st dl).readMat md n = true →
    st.readMat md n = true ∨ ∃ t ∈ dl.nodes, t.module = md ∧ t.name = n
  | .nil, st, md, n => by
    intro h
    rw [setMaterializeList] at h
    exact Or.inl h
  | .cons hd tl, st, md, n => by
    intro h
    rw [setMaterializeList] at h
    rcases readMat_setMaterializeList_new tl (setMaterialize st hd) md n h with
      h2 | ⟨t, ht, hmd, hn⟩
    · rcases readMat_setMaterialize_new hd st md n h2 with h3 | ⟨t, ht, hmd, hn⟩
      · exact Or.inl h3
      · right
        refine ⟨t, ?_, hmd, hn⟩
        rw [SigDeps.nodes]
        exact List.mem_append_left _ ht
    · right
      refine ⟨t, ?_, hmd, hn⟩
      rw [SigDeps.nodes]
      exact List.mem_append_right _ ht
end

mutual
theorem setMaterialize_marks : ∀ (s : SigExpr) (st : DesignState),
    (∀ t ∈ s.nodes, st.resolvable t.module t.name = true) →
    (∀ t ∈ s.nodes, st.readMat t.module t.name = false) →
    (s.nodes.map (fun t => (t.module, t.name))).Nodup →
    ∀ t ∈ s.nodes, (setMaterialize st s).readMat t.module t.name = true
  | .mk n2 md2 lv rv mem deps, st => by
    intro hres hun hnd t ht
    have hrootmem : (SigExpr.mk n2 md2 lv rv mem deps) ∈
        (SigExpr.mk n2 md2 lv rv mem deps).nodes := by
      rw [SigExpr.nodes]
      exact List.mem_cons_self _ _
    have hrootf : st.readMat md2 n2 = false := hun _ hrootmem
    have hndc : (((md2, n2) : Option String × String) ::
        (SigDeps.nodes deps).map (fun t => (t.module, t.name))).Nodup := by
      rw [SigExpr.nodes] at hnd
      simp only [List.map_cons] at hnd
      exact hnd
    rw [setMaterialize, if_neg (by simp [hrootf])]
    rw [SigExpr.nodes] at ht
    rcases List.mem_cons.mp ht with rfl | htl
    · exact readMat_setMaterializeList_mono deps (st.setMatFlag md2 n2) _ _
        (readMat_setMatFlag_self st md2 n2 (hres _ hrootmem))
    · refine setMaterializeList_marks deps (st.setMatFlag md2 n2) ?_ ?_ ?_ t htl
      · intro u hu
        rw [resolvable_setMatFlag st md2 n2 u.module u.name]
        refine hres u ?_
        rw [SigExpr.nodes]
        exact List.mem_cons_of_mem _ hu
      · intro u hu
        have hpu : ((u.module, u.name) : Option String × String) ∈
            (SigDeps.nodes deps).map (fun t => (t.module, t.name)) :=
          List.mem_map_of_mem _ hu
        have hne : ¬(u.module = md2 ∧ u.name = n2) := by
          rintro ⟨ha, hb⟩
          have hni := (List.nodup_cons.mp hndc).1
          apply hni
          rw [← ha, ← hb]
          exact hpu
        rw [readMat_setMatFlag_other st md2 n2 u.module u.name hne]
        refine hun u ?_
        rw [SigExpr.nodes]
        exact List.mem_cons_of_mem _ hu
      · exact (List.nodup_cons.mp hndc).2

theorem setMaterializeList_marks : ∀ (dl : SigDeps) (st : DesignState),
    (∀ t ∈ dl.nodes, st.resolvable t.module t.name = true) →
    (∀ t ∈ dl.nodes, st.readMat t.module t.name = false) →
    (dl.nodes.map (fun t => (t.module, t.name))).Nodup →
    ∀ t ∈ dl.nodes, (setMaterializeList st dl).readMat t.module t.name = true
  | .nil, st => by
    intro _ _ _ t ht
    rw [SigDeps.nodes] at ht
    exact absurd ht (List.not_mem_nil _)
  | .cons hd tl, st => by
    intro hres hun hnd t ht
    have hmemL : ∀ u ∈ hd.nodes, u ∈ (SigDeps.cons hd tl).nodes := by
      intro u hu
      rw [SigDeps.nodes]
      exact List.mem_append_left _ hu
    have hmemR : ∀ u ∈ tl.nodes, u ∈ (SigDeps.cons hd tl).nodes := by
      intro u hu
      rw [SigDeps.nodes]
      exact List.mem_append_right _ hu
    have hndapp : ((hd.nodes.map (fun t => (t.module, t.name))) ++
        (tl.nodes.map (fun t => (t.module, t.name)))).Nodup := by
      rw [SigDeps.nodes, List.map_append] at hnd
      exact hnd
    have hndL := (List.nodup_append.mp hndapp).1
    have hndR := (List.nodup_append.mp hndapp).2.1
    have hdisj := (List.nodup_append.mp hndapp).2.2
    rw [setMaterializeList]
    rw [SigDeps.nodes] at ht
    rcases List.mem_append.mp ht with hL | hR
    · exact readMat_setMaterializeList_mono tl (setMaterialize st hd) _ _
        (setMaterialize_marks hd st (fun u hu => hres u (hmemL u hu))
          (fun u hu => hun u (hmemL u hu)) hndL t hL)
    · refine setMaterializeList_marks tl (setMaterialize st hd) ?_ ?_ hndR t hR
      · intro u hu
        rw [resolvable_setMaterialize hd st u.module u.name]
        exact hres u (hmemR u hu)
      · intro u hu
        cases hcase : (setMaterialize st hd).readMat u.module u.name with
        | false => rfl
        | true =>
          exfalso
          rcases readMat_setMaterialize_new hd st u.module u.name hcase with
            h3 | ⟨v, hv, hvmd, hvn⟩
          · rw [hun u (hmemR u hu)] at h3
            exact Bool.false_ne_true h3
          · refine hdisj (List.mem_map_of_mem _ hv) ?_
            rw [hvmd, hvn]
            exact List.mem_map_of_mem _ hu
end

/-- C10: `Assign` on a non-memory lvalue whose `vlog_lvalue` is unset
(Chipy.py lines 1087-1090 taking the `else` of line 1082 and then line
1089): the call raises `ValueError("Trying to assign to signal with
unset lvalue")`, yet `rhs.set_materialize()` (line 1080) has already
run, so the returned state is exactly `setMaterialize st rhs` — the
materialize marks persist after the exception — and in it every node of
`rhs` (the signal and, transitively, all its dependencies) is marked,
while the open-context stack (pushed by `with ChipyContext()` and
popped by its `__exit__` on the raise) is restored to its pre-call
value.  The marking conjunct assumes a well-formed rhs tree: every node
resolvable in the registry, not yet materialized, and no two nodes
aliasing the same (module, name). -/
theorem assign_unset_lvalue (st : DesignState) (lhs rhs : SigExpr) (loc : String)
    (c : CtxFrame) (cs : List CtxFrame)
    (hmem : lhs.memoryName = none)
    (hlv : lhs.vlogLvalue = none)
    (hctx : st.ctxStack = c :: cs)
    (hres : ∀ t ∈ rhs.nodes, st.resolvable t.module t.name = true)
    (hun : ∀ t ∈ rhs.nodes, st.readMat t.module t.name = false)
    (hnd : (rhs.nodes.map (fun t => (t.module, t.name))).Nodup) :
    Assign st lhs rhs loc =
      (setMaterialize st rhs,
       some (PyErr.valueError "Trying to assign to signal with unset lvalue")) ∧
    (setMaterialize st rhs).ctxStack = st.ctxStack ∧
    ∀ t ∈ rhs.nodes, (setMaterialize st rhs).readMat t.module t.name = true := by
  have hctx1 : (setMaterialize st rhs).ctxStack = c :: cs :=
    ((setMaterialize_fields st rhs).1).trans hctx
  refine ⟨?_, (setMaterialize_fields st rhs).1,
    setMaterialize_marks rhs st hres hun hnd⟩
  unfold Assign
  rw [hmem]
  dsimp only
  rw [pushPlainCtx_cons hctx1]
  dsimp only
  rw [hlv]
  dsimp only
  rw [show (popCtx { setMaterialize st rhs with ctxStack :=
      { module := c.module, snippet := c.snippet } :: c :: cs }) =
    { setMaterialize st rhs with ctxStack := c :: cs } from rfl, ← hctx1]

def lhs2W : SigExpr := .mk "x" (some "top") none none none .nil

def rhs2W : SigExpr := .mk "c42" none none none none .nil

theorem assign_unset_lvalue_witness :
    Assign stW lhs2W rhs2W "w" =
      (setMaterialize stW rhs2W,
       some (PyErr.valueError "Trying to assign to signal with unset lvalue")) ∧
    (setMaterialize stW rhs2W).ctxStack = stW.ctxStack ∧
    (setMaterialize stW rhs2W).readMat rhs2W.module rhs2W.name = true := by
  have h := assign_unset_lvalue stW lhs2W rhs2W "w"
    { module := some "top", snippet := none } [] rfl rfl rfl
    (by decide) (by decide) (by decide)
  exact ⟨h.1, h.2.1, h.2.2 rhs2W (List.Mem.head _)⟩
